import Mathlib

/-!
# Audit-log exporter: the filter and reduction engine

A shallow embedding of `cmd/exporter/filter.go` (and the per-event body of the
`Filter` worker of `cmd/exporter/main.go`).

* Pointers that may be nil are `Option`s; dereferencing `none` is a run-time
  panic, so every function that can dereference returns `Except Panic _`.
* The process-wide variables `filterPolicy`, `maxlinelength`, `nofilter` and
  `cache` are explicit arguments; the cache is threaded through as state.
* Code that lives in imported libraries (the URL parser and the methods of the
  attribute accessor, the policy rule matcher, the JSON object codec and the
  merge-patch routine) is collected in the structure `Lib` and every theorem
  is stated for an arbitrary `Lib`.
* `Attributes` discards the error of the accessor constructor, so the accessor
  is `none` (nil) for a request without object reference whose request URI
  does not parse; every use of a nil accessor panics.
* `Drop` and `Keep` only touch metric counters besides returning the verdict;
  the counters are not part of the model.
-/

namespace Exporter

/-! ## Data model -/

/-- The audit level of an event or a policy rule. The audit API declares the
level as a string with these four names; `ordLevel` ranks any other string
like `None`. -/
inductive Level where
  | None
  | Metadata
  | Request
  | RequestResponse
  deriving DecidableEq, Repr

/-- Rank of a level: `ordLevel` of the audit API, on which `Less` and
`GreaterOrEqual` are defined. -/
def ordLevel : Level → Nat
  | .None => 0
  | .Metadata => 1
  | .Request => 2
  | .RequestResponse => 3

/-- The method `Level.Less`. -/
def Level.Less (a b : Level) : Bool := decide (ordLevel a < ordLevel b)

/-- The method `Level.GreaterOrEqual`. -/
def Level.GreaterOrEqual (a b : Level) : Bool := decide (ordLevel a ≥ ordLevel b)

/-- A Go byte slice: `none` is the nil slice, `some s` holds the bytes of `s`. -/
abbrev Bytes := Option String

/-- The builtin `len` on a byte slice (the nil slice has length 0). -/
def len (b : Bytes) : Int :=
  match b with
  | none => 0
  | some s => (s.utf8ByteSize : Int)

/-- The conversion `string(b)` of a byte slice (the nil slice gives `""`). -/
def toStr (b : Bytes) : String :=
  match b with
  | none => ""
  | some s => s

/-- Go `strings.HasPrefix`. -/
def HasPrefix (s p : String) : Bool := p.data.isPrefixOf s.data

/-- Go `strings.HasSuffix`. -/
def HasSuffix (s p : String) : Bool := p.data.isSuffixOf s.data

/-- Go `bytes.Contains` with a non-empty pattern (false on the nil slice). -/
def Contains (b : Bytes) (sub : String) : Bool :=
  (toStr b).data.tails.any (fun t => sub.data.isPrefixOf t)

/-- The expression `strings.SplitN(s, "?", 2)[0]`: `s` up to its first `?`. -/
def beforeQuery (s : String) : String :=
  String.mk (s.data.takeWhile (fun ch => ch != '?'))

/-- The user of an event. -/
structure UserInfo where
  Username : String
  Groups : List String
  deriving DecidableEq, Repr

/-- The object a request refers to. -/
structure ObjectReference where
  Resource : String
  Namespace : String
  Name : String
  Subresource : String
  deriving DecidableEq, Repr

/-- The response status of an event. -/
structure Status where
  Code : Int
  deriving DecidableEq, Repr

/-- A raw JSON payload (`runtime.Unknown`). -/
structure Unknown where
  Raw : Bytes
  deriving DecidableEq, Repr

/-- The audit event; pointer fields and the map are `Option`s (`none` = nil). -/
structure Event where
  Level : Level
  Verb : String
  User : UserInfo
  ObjectRef : Option ObjectReference
  RequestURI : String
  ResponseStatus : Option Status
  RequestObject : Option Unknown
  ResponseObject : Option Unknown
  Annotations : Option (List (String × String))
  deriving DecidableEq, Repr

/-- Modelled from the spec: the request attributes a policy rule is evaluated
on (user, verb, object reference and, for a request without object reference,
the path parsed from the request URI); the accessor type itself is declared in
an imported library. -/
structure AuthzAttributes where
  User : UserInfo
  Verb : String
  ObjectRef : Option ObjectReference
  Path : String
  deriving DecidableEq, Repr

/-- Modelled from the spec: a policy rule carries a target level and optional
scopes by user, group, verb, resource, namespace and non-resource URL; the
rule type is declared in an imported library. -/
structure PolicyRule where
  Level : Level
  Users : List String
  UserGroups : List String
  Verbs : List String
  Resources : List String
  Namespaces : List String
  NonResourceURLs : List String
  deriving DecidableEq, Repr

/-- The policy: an ordered list of rules. -/
structure Policy where
  Rules : List PolicyRule
  deriving DecidableEq, Repr

/-- The run-time panics the filter can raise. -/
inductive Panic where
  | nilPointerDereference
  | assignmentToEntryInNilMap
  deriving DecidableEq, Repr

/-- The imported library routines the filter calls. `ParseRequestURI` is the
URL parser used to build the attribute accessor (it returns the path, `none`
is its error result), `IsReadOnly` the method of the attribute accessor,
`ruleMatches` the linked policy matcher, `UnmarshalJSON` /
`RemoveNestedField` / `MarshalJSON` the unstructured-object codec and
`CreateThreeWayJSONMergePatch` the merge-patch routine (`none` is its error
result). -/
structure Lib where
  ParseRequestURI : String → Option String
  IsReadOnly : AuthzAttributes → Bool
  ruleMatches : PolicyRule → AuthzAttributes → Bool
  Obj : Type
  UnmarshalJSON : Bytes → Obj
  RemoveNestedField : Obj → List String → Obj
  MarshalJSON : Obj → Bytes
  CreateThreeWayJSONMergePatch : Bytes → Bytes → Bytes → Option Bytes

/-! ## The prior-version cache -/

/-- Modelled from the spec: the prior-version cache is a bounded mapping from a
request key to the last observed body with least-recently-used eviction; the
cache type is declared in an imported library. Entries are kept most recently
used first. -/
structure LRU where
  size : Nat
  items : List (String × Bytes)
  deriving DecidableEq, Repr

/-- The constructor `lru.New`. -/
def LRU.New (size : Nat) : LRU := { size := size, items := [] }

/-- The method `Get`: looks the key up and, on a hit, marks it most recently used. -/
def LRU.Get (c : LRU) (key : String) : Option Bytes × LRU :=
  match c.items.find? (fun kv => kv.1 == key) with
  | some kv => (some kv.2, { c with items := kv :: c.items.filter (fun x => x.1 != key) })
  | none => (none, c)

/-- The method `Add`: stores the value as most recently used, evicting the
least recently used entry when the capacity is exceeded. -/
def LRU.Add (c : LRU) (key : String) (value : Bytes) : LRU :=
  { c with items := ((key, value) :: c.items.filter (fun x => x.1 != key)).take c.size }

/-! ## metrics.go: verdicts -/

/-- Drop: counts the event as dropped and returns the drop verdict `true`. -/
def Drop (_e : Event) : Bool := true

/-- Keep: counts the event as accepted and returns the keep verdict `false`. -/
def Keep (_e : Event) : Bool := false

/-! ## filter.go -/

/-- The constructor `NewAttributes` of the imported audit event library: the
accessor of the event, or `none` (a nil accessor together with an error) when
the event has no object reference and its request URI does not parse. -/
def NewAttributes (lib : Lib) (e : Event) : Option AuthzAttributes :=
  match e.ObjectRef with
  | none =>
    match lib.ParseRequestURI e.RequestURI with
    | none => none
    | some path => some { User := e.User, Verb := e.Verb, ObjectRef := none, Path := path }
  | some o => some { User := e.User, Verb := e.Verb, ObjectRef := some o, Path := "" }

/-- Attributes (filter.go 150-153): the attribute accessor of an event; the
error of `NewAttributes` is discarded, so the result is `none` (nil) when
`NewAttributes` fails. -/
def Attributes (lib : Lib) (e : Event) : Option AuthzAttributes :=
  NewAttributes lib e

/-- The call `Attributes(event).IsReadOnly()` (filter.go 32 and 42): a method
call on the accessor, which panics when the accessor is nil. -/
def attributesIsReadOnly (lib : Lib) (event : Event) : Except Panic Bool :=
  match Attributes lib event with
  | none => .error Panic.nilPointerDereference
  | some a => .ok (lib.IsReadOnly a)

/-- The body of the loop of `MatchesPolicy` (filter.go 134-147) over the
remaining rules; `ruleMatches` calls the methods of the accessor and panics
when the accessor is nil. -/
def MatchesPolicyRules (lib : Lib) (e : Event) : List PolicyRule → Except Panic (Bool × Event)
  | [] => .ok (false, e)
  | r :: rs =>
    match Attributes lib e with
    | none => .error Panic.nilPointerDereference
    | some a =>
      if lib.ruleMatches r a then
        let e1 := { e with Level := r.Level }
        let e2 := if e1.Level.Less Level.RequestResponse then { e1 with ResponseObject := none } else e1
        let e3 := if r.Level.Less Level.Request then { e2 with RequestObject := none } else e2
        .ok (true, e3)
      else MatchesPolicyRules lib e rs

/-- MatchesPolicy (filter.go 133-148): returns the verdict and the event as
the call leaves it, or the panic that aborts the call. -/
def MatchesPolicy (lib : Lib) (e : Event) (p : Policy) : Except Panic (Bool × Event) :=
  MatchesPolicyRules lib e p.Rules

/-- RemoveObjectField (filter.go 188-194). -/
def RemoveObjectField (lib : Lib) (data : Bytes) (field : List String) : Bytes :=
  lib.MarshalJSON (lib.RemoveNestedField (lib.UnmarshalJSON data) field)

/-- GetPreviousVersion (filter.go 172-186): returns `(now, then, ok)` and the
cache after the deferred `Add`. -/
def GetPreviousVersion (lib : Lib) (cache : Option LRU) (e : Event) :
    Except Panic ((Bytes × Bytes × Bool) × Option LRU) :=
  let c := match cache with
    | none => LRU.New 1000
    | some c => c
  let key := beforeQuery e.RequestURI
  match e.RequestObject with
  | none => .error Panic.nilPointerDereference
  | some ro =>
    let now := RemoveObjectField lib ro.Raw ["metadata"]
    let now := RemoveObjectField lib now ["status"]
    match c.Get key with
    | (some prev, c1) => .ok ((now, prev, true), some (c1.Add key now))
    | (none, c1) => .ok ((now, none, false), some (c1.Add key now))

/-- ReduceToPatch (filter.go 158-168). -/
def ReduceToPatch (lib : Lib) (cache : Option LRU) (e : Event) :
    Except Panic (Bool × Event × Option LRU) :=
  match GetPreviousVersion lib cache e with
  | .error p => .error p
  | .ok ((now, prev, ok), cache1) =>
    if ok then
      match lib.CreateThreeWayJSONMergePatch prev now prev with
      | none => .ok (false, e, cache1)
      | some patch =>
        .ok (true, { e with Verb := "patch",
                            RequestObject := e.RequestObject.map (fun _ => Unknown.mk patch) },
             cache1)
    else .ok (false, e, cache1)

/-- IsEmptyPatch (filter.go 196-211). The condition of the first `if` is
`a && b || c`, which Go reads as `(a && b) || c`. -/
def IsEmptyPatch (e : Event) : Bool :=
  if (e.Level.GreaterOrEqual Level.Request && e.Verb == "patch") || e.Verb == "update" then
    match e.RequestObject with
    | none => true
    | some ro =>
      match ro.Raw with
      | none => true
      | some raw => raw == "\x7b\x7d" || raw == "null" || raw == ""
  else if e.Level.GreaterOrEqual Level.Metadata then
    false
  else
    true

/-- EstimateOutputSize (filter.go 214-223). -/
def EstimateOutputSize (e : Event) : Int :=
  let n : Int := 2000
  let n := match e.RequestObject with
    | some ro => n + len ro.Raw
    | none => n
  let n := match e.ResponseObject with
    | some ro => n + len ro.Raw
    | none => n
  n

/-- The rules for events not covered by the policy (filter.go 29-72):
`some v` is the terminal verdict `v`, `none` falls through to line 75. In the
configmap rule `event.ObjectRef.Resource` is read without a nil check. -/
def heuristicRules (lib : Lib) (event : Event) : Except Panic (Option Bool) :=
  match (if event.ObjectRef = none then attributesIsReadOnly lib event else .ok false) with
  | .error p => .error p
  | .ok true => .ok (some (Drop event))
  | .ok false =>
    if event.User.Username ≠ "" ∧ ¬ (HasPrefix event.User.Username "system:" = true) then
      .ok (some (Keep event))
    else
      match attributesIsReadOnly lib event with
      | .error p => .error p
      | .ok true => .ok (some (Drop event))
      | .ok false =>
        if event.Level.Less Level.Request = true ∧
            (match event.ObjectRef with
             | some o => HasPrefix o.Namespace "openshift-"
             | none => false) = true then
          .ok (some (Drop event))
        else if event.Verb = "update" ∨ event.Verb = "create" then
          match event.ObjectRef with
          | none => .error Panic.nilPointerDereference
          | some o =>
            match event.RequestObject with
            | none => .ok none
            | some ro =>
              if o.Resource = "configmaps" then
                if o.Name = "kube-root-ca.crt" ∨ HasSuffix o.Name "-ca" = true ∨
                    HasSuffix o.Name "bundle" = true ∨ Contains ro.Raw "ca-bundle.crt" = true then
                  .ok (some (Drop event))
                else if HasSuffix o.Name "-lock" = true ∨ HasSuffix o.Name "-leader" = true ∨
                    Contains ro.Raw "kubernetes.io/leader" = true then
                  .ok (some (Drop event))
                else .ok none
              else .ok none
        else .ok none

/-- The condition of the response-status filter (filter.go 76-79):
`s != nil && s.Code == 404 || s.Code == 409 || s.Code == 422`, which Go reads
as `(s != nil && s.Code == 404) || s.Code == 409 || s.Code == 422`; with a nil
status the first disjunct is false and the second dereferences nil. -/
def responseStatusDrop (event : Event) : Except Panic Bool :=
  match event.ResponseStatus with
  | some s => .ok (decide (s.Code = 404) || decide (s.Code = 409) || decide (s.Code = 422))
  | none => .error Panic.nilPointerDereference

/-- Assignment `m[k] = v` on a Go map held as an association list. -/
def mapSet (m : List (String × String)) (k v : String) : List (String × String) :=
  if m.any (fun kv => kv.1 == k) then
    m.map (fun kv => if kv.1 == k then (k, v) else kv)
  else m ++ [(k, v)]

/-- Lookup `m[k]` on a Go map held as an association list. -/
def mapGet (m : Option (List (String × String))) (k : String) : Option String :=
  match m with
  | none => none
  | some l => (l.find? (fun kv => kv.1 == k)).map (fun kv => kv.2)

/-- The update-to-patch step (filter.go 84-86); assigning into a nil
annotation map panics. -/
def updateToPatch (lib : Lib) (cache : Option LRU) (event : Event) :
    Except Panic (Event × Option LRU) :=
  if event.Verb = "update" ∧ event.RequestObject ≠ none then
    match ReduceToPatch lib cache event with
    | .error p => .error p
    | .ok (true, event1, cache1) =>
      match event1.Annotations with
      | none => .error Panic.assignmentToEntryInNilMap
      | some m =>
        .ok ({ event1 with Annotations := some (mapSet m "converted-to-patch" "true") }, cache1)
    | .ok (false, event1, cache1) => .ok (event1, cache1)
  else .ok (event, cache)

/-- The level downgrade for updates and patches (filter.go 94-98). -/
def downgradeLevel (event : Event) : Event :=
  if (event.Verb = "update" ∨ event.Verb = "patch") ∧
      event.Level.GreaterOrEqual Level.RequestResponse = true then
    { event with Level := Level.Request, ResponseObject := none }
  else event

/-- The first size reduction (filter.go 101-104): strip the annotations of the
request body. -/
def stripAnnotations (lib : Lib) (maxlinelength : Int) (event : Event) : Event :=
  match event.RequestObject with
  | some ro =>
    if EstimateOutputSize event > maxlinelength then
      let raw := RemoveObjectField lib ro.Raw ["metadata", "annotations"]
      { event with RequestObject := some (Unknown.mk raw) }
    else event
  | none => event

/-- The second size reduction (filter.go 107-111): fall back to `Metadata`. -/
def reduceToMetadata (maxlinelength : Int) (event : Event) : Event :=
  if EstimateOutputSize event > maxlinelength then
    { event with Level := Level.Metadata, RequestObject := none, ResponseObject := none }
  else event

/-- The common tail of `FilterEvent` (filter.go 75-113). -/
def filterTail (lib : Lib) (maxlinelength : Int) (cache : Option LRU) (event : Event) :
    Except Panic (Bool × Event × Option LRU) :=
  match responseStatusDrop event with
  | .error p => .error p
  | .ok true => .ok (Drop event, event, cache)
  | .ok false =>
    match updateToPatch lib cache event with
    | .error p => .error p
    | .ok (event1, cache1) =>
      if IsEmptyPatch event1 then .ok (Drop event1, event1, cache1)
      else
        let event2 := downgradeLevel event1
        let event3 := stripAnnotations lib maxlinelength event2
        let event4 := reduceToMetadata maxlinelength event3
        .ok (Keep event4, event4, cache1)

/-- The policy check and the rules for uncovered events (filter.go 20-73):
`(some v, e)` is the terminal verdict `v`, `(none, e)` reaches line 75 with
the event `e`. -/
def rulesStage (lib : Lib) (filterPolicy : Policy) (event : Event) :
    Except Panic (Option Bool × Event) :=
  match MatchesPolicy lib event filterPolicy with
  | .error p => .error p
  | .ok (true, event1) =>
    if event1.Level = Level.None then .ok (some (Drop event1), event1)
    else .ok (none, event1)
  | .ok (false, event1) =>
    match heuristicRules lib event1 with
    | .error p => .error p
    | .ok verdict => .ok (verdict, event1)

/-- FilterEvent (filter.go 18-115): returns the verdict (`true` = drop), the
event as the call leaves it and the cache as the call leaves it, or the panic
that aborts the call. -/
def FilterEvent (lib : Lib) (filterPolicy : Policy) (maxlinelength : Int)
    (cache : Option LRU) (event : Event) : Except Panic (Bool × Event × Option LRU) :=
  match rulesStage lib filterPolicy event with
  | .error p => .error p
  | .ok (some verdict, event1) => .ok (verdict, event1, cache)
  | .ok (none, event1) => filterTail lib maxlinelength cache event1

/-! ## main.go: the filter worker -/

/-- The body of the loop of a `Filter` worker (main.go 131-137) for one event:
`some e` is the event sent to the output channel, `none` means nothing is sent. -/
def filterStep (lib : Lib) (filterPolicy : Policy) (maxlinelength : Int) (nofilter : Bool)
    (cache : Option LRU) (event : Event) : Except Panic (Option Event × Option LRU) :=
  match FilterEvent lib filterPolicy maxlinelength cache event with
  | .error p => .error p
  | .ok (drop, event1, cache1) =>
    if drop && !nofilter then .ok (none, cache1) else .ok (some event1, cache1)

/-- One worker processing a sequence of events in order with one shared
cache: the verdict and resulting event of each call of `FilterEvent`. -/
def FilterEvents (lib : Lib) (filterPolicy : Policy) (maxlinelength : Int) :
    Option LRU → List Event → Except Panic (List (Bool × Event) × Option LRU)
  | cache, [] => .ok ([], cache)
  | cache, event :: rest =>
    match FilterEvent lib filterPolicy maxlinelength cache event with
    | .error p => .error p
    | .ok (verdict, event1, cache1) =>
      match FilterEvents lib filterPolicy maxlinelength cache1 rest with
      | .error p => .error p
      | .ok (results, cache2) => .ok ((verdict, event1) :: results, cache2)

/-! ## Specification-side definitions -/

/-- The consistency invariant of the data model: the level is at least
`Metadata`, there is no response object below `RequestResponse` and no request
object below `Request`. -/
def Consistent (e : Event) : Prop :=
  ordLevel Level.Metadata ≤ ordLevel e.Level ∧
  (ordLevel e.Level < ordLevel Level.RequestResponse → e.ResponseObject = none) ∧
  (ordLevel e.Level < ordLevel Level.Request → e.RequestObject = none)

/-- The first (lowest-index) rule of the policy that matches the attributes of
the event (none when the event has no attribute accessor). -/
def firstMatch (lib : Lib) (p : Policy) (e : Event) : Option PolicyRule :=
  match Attributes lib e with
  | none => none
  | some a => p.Rules.find? (fun r => lib.ruleMatches r a)

/-- The event with the level of a matching rule applied: the level is set, the
response object is cleared below `RequestResponse`, the request object is
cleared below `Request`, and no other field changes. -/
def withRuleLevel (e : Event) (l : Level) : Event :=
  { e with
    Level := l
    ResponseObject := if ordLevel l < ordLevel Level.RequestResponse then none else e.ResponseObject
    RequestObject := if ordLevel l < ordLevel Level.Request then none else e.RequestObject }

/-- A body that counts as empty: nil, `{}`, `null` or the empty string. -/
def emptyBody (b : Bytes) : Bool :=
  match b with
  | none => true
  | some raw => raw == "\x7b\x7d" || raw == "null" || raw == ""

/-- The canonical body of an event: its request body without the `metadata`
and `status` subtrees (nil when there is no request object). -/
def canonicalBody (lib : Lib) (e : Event) : Bytes :=
  match e.RequestObject with
  | some ro => RemoveObjectField lib (RemoveObjectField lib ro.Raw ["metadata"]) ["status"]
  | none => none

/-- An emitted event that was converted to a patch: kept, with verb `patch`
and the annotation `converted-to-patch` set to `true`. -/
def emittedAsPatch (r : Bool × Event) : Bool :=
  !r.1 && r.2.Verb == "patch" && mapGet r.2.Annotations "converted-to-patch" == some "true"

/-- The three reductions after the empty-patch check (filter.go 93-111). -/
def finish (lib : Lib) (m : Int) (e : Event) : Event :=
  reduceToMetadata m (stripAnnotations lib m (downgradeLevel e))

/-- The cache in use by `GetPreviousVersion`: the given one, or a new one of
capacity 1000 when none was created yet. -/
def cacheOrNew (cache : Option LRU) : LRU :=
  match cache with
  | none => LRU.New 1000
  | some c => c

/-- The cache as `GetPreviousVersion` leaves it for an event with a request
object: the canonical body is stored under the request key. -/
def cacheAfter (lib : Lib) (cache : Option LRU) (e : Event) : LRU :=
  ((cacheOrNew cache).Get (beforeQuery e.RequestURI)).2.Add (beforeQuery e.RequestURI)
    (canonicalBody lib e)

/-- The event reaches the update-to-patch step in a state in which the step
can run: no rule or heuristic ends the call, the response status is present
and none of 404, 409, 422, the level is not `None`, and the request object and
the annotation map are present. -/
def reachesReduction (lib : Lib) (p : Policy) (e : Event) : Prop :=
  ∃ e0, rulesStage lib p e = .ok (none, e0) ∧ responseStatusDrop e0 = .ok false ∧
    e0.Level ≠ Level.None ∧ e0.RequestObject ≠ none ∧ e0.Annotations ≠ none

/-- The merge patch from the canonical body of `a` to that of `b` is computed
without error and is not an empty body. -/
def patchable (lib : Lib) (a b : Event) : Prop :=
  ∃ q, lib.CreateThreeWayJSONMergePatch (canonicalBody lib a) (canonicalBody lib b)
      (canonicalBody lib a) = some q ∧ emptyBody q = false

/-- The cascade of rules for events that no policy rule matches, in the words
of the specification, for an event with the attribute accessor `a`:
`some true` is drop, `some false` is keep, `none` passes the event on to the
response-status filter. -/
def heuristicCascade (lib : Lib) (a : AuthzAttributes) (e : Event) : Option Bool :=
  if e.ObjectRef = none ∧ lib.IsReadOnly a = true then some true
  else if e.User.Username ≠ "" ∧ HasPrefix e.User.Username "system:" = false then some false
  else if lib.IsReadOnly a = true then some true
  else
    match e.ObjectRef with
    | none => none
    | some o =>
      if ordLevel e.Level < ordLevel Level.Request ∧ HasPrefix o.Namespace "openshift-" = true then
        some true
      else
        match e.RequestObject with
        | none => none
        | some ro =>
          if (e.Verb = "update" ∨ e.Verb = "create") ∧ o.Resource = "configmaps" ∧
              ((o.Name = "kube-root-ca.crt" ∨ HasSuffix o.Name "-ca" = true ∨
                  HasSuffix o.Name "bundle" = true ∨ Contains ro.Raw "ca-bundle.crt" = true) ∨
                (HasSuffix o.Name "-lock" = true ∨ HasSuffix o.Name "-leader" = true ∨
                  Contains ro.Raw "kubernetes.io/leader" = true)) then
            some true
          else none

/-! ## A library instance for concrete evaluations -/

/-- Modelled from the spec: the read-only verbs `get`, `list`, `watch`,
`proxy`, `head`, `options` of the attribute accessor of the imported library. -/
def readOnlyVerb (a : AuthzAttributes) : Bool :=
  a.Verb == "get" || a.Verb == "list" || a.Verb == "watch" ||
  a.Verb == "proxy" || a.Verb == "head" || a.Verb == "options"

/-- An empty scope matches anything, a non-empty scope must list the value. -/
def scopeMatches (scope : List String) (v : String) : Bool :=
  scope.isEmpty || scope.contains v

/-- Modelled from the spec: the rule predicate of the imported policy library;
every non-empty scope of the rule must match for the rule to fire. -/
def specRuleMatches (r : PolicyRule) (a : AuthzAttributes) : Bool :=
  scopeMatches r.Users a.User.Username &&
  (r.UserGroups.isEmpty || a.User.Groups.any (fun g => r.UserGroups.contains g)) &&
  scopeMatches r.Verbs a.Verb &&
  (r.Resources.isEmpty ||
    (match a.ObjectRef with
     | some o => r.Resources.contains o.Resource
     | none => false)) &&
  (r.Namespaces.isEmpty ||
    (match a.ObjectRef with
     | some o => r.Namespaces.contains o.Namespace
     | none => false)) &&
  (r.NonResourceURLs.isEmpty ||
    (a.ObjectRef.isNone && r.NonResourceURLs.contains a.Path))

/-- The URL parser of the library instances: a request URI parses when it
starts with a slash (the empty string does not parse); the path is the part
before the query. -/
def parseSlashURI (s : String) : Option String :=
  if HasPrefix s "/" then some (beforeQuery s) else none

/-- The library instance used for concrete evaluations. The JSON routines are
placeholders (bodies pass through unchanged, no patch is ever computed); the
evaluations below are chosen so that no JSON routine is reached, except where
stated otherwise. -/
def specLib : Lib :=
  { ParseRequestURI := parseSlashURI
    IsReadOnly := readOnlyVerb
    ruleMatches := specRuleMatches
    Obj := Bytes
    UnmarshalJSON := fun b => b
    RemoveNestedField := fun o _ => o
    MarshalJSON := fun o => o
    CreateThreeWayJSONMergePatch := fun _ _ _ => none }

/-- A rule without scopes (it matches every request) with the given level. -/
def ruleForAll (l : Level) : PolicyRule :=
  { Level := l, Users := [], UserGroups := [], Verbs := [], Resources := [],
    Namespaces := [], NonResourceURLs := [] }

/-- The policy without rules. -/
def emptyPolicy : Policy := { Rules := [] }

/-! ## Concrete events -/

/-- A pod creation by the user `alice`, recorded at level `Metadata` although
it carries a request body. -/
def aliceCreate : Event :=
  { Level := Level.Metadata, Verb := "create",
    User := { Username := "alice", Groups := [] },
    ObjectRef := some { Resource := "pods", Namespace := "default", Name := "p", Subresource := "" },
    RequestURI := "/api/v1/namespaces/default/pods",
    ResponseStatus := some { Code := 201 },
    RequestObject := some (Unknown.mk (some "\x7b\"kind\":\"Pod\"\x7d")),
    ResponseObject := none,
    Annotations := none }

/-- A pod creation by a controller with a ten-byte response body and no
request body. -/
def controllerCreate : Event :=
  { Level := Level.Metadata, Verb := "create",
    User := { Username := "system:serviceaccount:kube-system:job-controller", Groups := [] },
    ObjectRef := some { Resource := "pods", Namespace := "default", Name := "p", Subresource := "" },
    RequestURI := "/api/v1/namespaces/default/pods",
    ResponseStatus := some { Code := 201 },
    RequestObject := none,
    ResponseObject := some (Unknown.mk (some "0123456789")),
    Annotations := none }

/-- The policy whose only rule logs every request at `RequestResponse`. -/
def logEverything : Policy := { Rules := [ruleForAll Level.RequestResponse] }

/-- The event `controllerCreate` as the size reduction leaves it. -/
def controllerCreateReduced : Event :=
  { controllerCreate with Level := Level.Metadata, ResponseObject := none }

/-- The policy whose only rule logs every request at `Metadata`. -/
def metadataOnly : Policy := { Rules := [ruleForAll Level.Metadata] }

/-- The event `aliceCreate` as the `Metadata` rule leaves it. -/
def aliceCreateMetadata : Event := { aliceCreate with RequestObject := none }

/-- A deployment patch by a controller with request and response bodies. -/
def controllerPatch : Event :=
  { Level := Level.RequestResponse, Verb := "patch",
    User := { Username := "system:serviceaccount:kube-system:deployment-controller", Groups := [] },
    ObjectRef := some { Resource := "deployments", Namespace := "default", Name := "d",
                        Subresource := "" },
    RequestURI := "/apis/apps/v1/namespaces/default/deployments/d",
    ResponseStatus := some { Code := 200 },
    RequestObject := some (Unknown.mk (some "\x7b\"spec\":\x7b\"replicas\":2\x7d\x7d")),
    ResponseObject := some (Unknown.mk (some "\x7b\"kind\":\"Deployment\"\x7d")),
    Annotations := none }

/-- The attribute accessor of `controllerPatch`. -/
def controllerPatchAttributes : AuthzAttributes :=
  { User := controllerPatch.User, Verb := "patch", ObjectRef := controllerPatch.ObjectRef,
    Path := "" }

/-- The event `controllerPatch` as the level downgrade leaves it. -/
def controllerPatchDowngraded : Event :=
  { controllerPatch with Level := Level.Request, ResponseObject := none }

/-- A creation by a controller on a non-resource path: no object reference. -/
def controllerCreateNoRef : Event :=
  { Level := Level.Metadata, Verb := "create",
    User := { Username := "system:serviceaccount:kube-system:job-controller", Groups := [] },
    ObjectRef := none,
    RequestURI := "/apis/custom.example.com/v1/submit",
    ResponseStatus := some { Code := 201 },
    RequestObject := none,
    ResponseObject := none,
    Annotations := none }

/-- A request without object reference and without request URI: the attribute
accessor cannot be built for it. -/
def requestWithoutURI : Event :=
  { Level := Level.Metadata, Verb := "get",
    User := { Username := "system:anonymous", Groups := [] },
    ObjectRef := none,
    RequestURI := "",
    ResponseStatus := some { Code := 200 },
    RequestObject := none,
    ResponseObject := none,
    Annotations := none }

/-- The event `controllerCreate` without a response status. -/
def controllerCreateNoStatus : Event := { controllerCreate with ResponseStatus := none }

/-- An update at level `Metadata` without a request object. -/
def updateAtMetadata : Event :=
  { Level := Level.Metadata, Verb := "update",
    User := { Username := "system:serviceaccount:kube-system:job-controller", Groups := [] },
    ObjectRef := some { Resource := "pods", Namespace := "default", Name := "p", Subresource := "" },
    RequestURI := "/api/v1/namespaces/default/pods/p",
    ResponseStatus := some { Code := 200 },
    RequestObject := none,
    ResponseObject := none,
    Annotations := none }

/-- An update at level `None` with a non-empty request body. -/
def updateAtNone : Event :=
  { updateAtMetadata with
    Level := Level.None
    RequestObject := some (Unknown.mk (some "\x7b\"data\":\x7b\"k\":\"v\"\x7d\x7d")) }

/-- The event `controllerCreateReduced` as a second run leaves it. -/
def controllerCreateRaised : Event :=
  { controllerCreateReduced with Level := Level.RequestResponse }

/-- The library instance `specLib` with arbitrary JSON routines. -/
def specLibWith (Obj : Type) (unmarshal : Bytes → Obj) (remove : Obj → List String → Obj)
    (marshal : Obj → Bytes) (patch : Bytes → Bytes → Bytes → Option Bytes) : Lib :=
  { ParseRequestURI := parseSlashURI
    IsReadOnly := readOnlyVerb
    ruleMatches := specRuleMatches
    Obj := Obj
    UnmarshalJSON := unmarshal
    RemoveNestedField := remove
    MarshalJSON := marshal
    CreateThreeWayJSONMergePatch := patch }

/-- The policy whose only rule logs every request at `Request`. -/
def requestOnly : Policy := { Rules := [ruleForAll Level.Request] }

/-- An update by a controller at level `Request` with a non-empty body. -/
def controllerUpdate : Event :=
  { updateAtMetadata with
    Level := Level.Request
    RequestObject := some (Unknown.mk (some "\x7b\"data\":\x7b\"k\":\"v\"\x7d\x7d")) }

/-- An update of a configmap by the user `alice` with the given body. -/
def aliceUpdate (body : String) : Event :=
  { Level := Level.Request, Verb := "update",
    User := { Username := "alice", Groups := [] },
    ObjectRef := some { Resource := "configmaps", Namespace := "x", Name := "c",
                        Subresource := "" },
    RequestURI := "/api/v1/namespaces/x/configmaps/c",
    ResponseStatus := some { Code := 200 },
    RequestObject := some (Unknown.mk (some body)),
    ResponseObject := none,
    Annotations := some [] }

/-- The same update issued by a controller. -/
def controllerUpdateOf (body : String) : Event :=
  { aliceUpdate body with
    User := { Username := "system:serviceaccount:x:operator", Groups := [] } }

/-- The first body of the update scenario. -/
def bodyV1 : String := "\x7b\"data\":\x7b\"k\":\"v1\"\x7d\x7d"

/-- The second body of the update scenario. -/
def bodyV2 : String := "\x7b\"data\":\x7b\"k\":\"v2\"\x7d\x7d"

/-- A library instance for the update scenario: bodies without `metadata`,
`status` and annotations pass through the object codec unchanged, and the
merge patch between two bodies that differ in the value of one key is the new
body (the empty object when they are equal). -/
def scenarioLib : Lib :=
  specLibWith Bytes (fun b => b) (fun o _ => o) (fun o => o)
    (fun prev now _ => if prev = now then some (some "\x7b\x7d") else some now)

/-- The second update of the scenario as the filter emits it. -/
def controllerUpdateAsPatch : Event :=
  { controllerUpdateOf bodyV2 with
    Verb := "patch"
    Annotations := some [("converted-to-patch", "true")] }

/-! ## MatchesPolicy -/

theorem withRuleLevel_of_match (e : Event) (l : Level) :
    (let e1 := { e with Level := l }
     let e2 := if e1.Level.Less Level.RequestResponse then { e1 with ResponseObject := none } else e1
     let e3 := if l.Less Level.Request then { e2 with RequestObject := none } else e2
     e3) = withRuleLevel e l := by
  cases l <;> simp [withRuleLevel, Level.Less, ordLevel]

theorem MatchesPolicyRules_eq (lib : Lib) (e : Event) (a : AuthzAttributes)
    (ha : Attributes lib e = some a) (rules : List PolicyRule) :
    MatchesPolicyRules lib e rules =
      .ok (match rules.find? (fun r => lib.ruleMatches r a) with
        | some r => (true, withRuleLevel e r.Level)
        | none => (false, e)) := by
  induction rules with
  | nil => simp [MatchesPolicyRules]
  | cons r rs ih =>
    by_cases h : lib.ruleMatches r a = true
    · simp only [MatchesPolicyRules, ha, h, if_true, List.find?_cons_of_pos]
      rw [← withRuleLevel_of_match]
    · simp only [MatchesPolicyRules, ha, h, if_false, Bool.false_eq_true]
      rw [ih]
      simp [List.find?, h]

theorem MatchesPolicy_eq (lib : Lib) (e : Event) (p : Policy) (a : AuthzAttributes)
    (ha : Attributes lib e = some a) :
    MatchesPolicy lib e p =
      .ok (match firstMatch lib p e with
        | some r => (true, withRuleLevel e r.Level)
        | none => (false, e)) := by
  unfold MatchesPolicy firstMatch
  rw [ha]
  exact MatchesPolicyRules_eq lib e a ha p.Rules

/-- A policy without rules matches nothing, whatever the event. -/
theorem MatchesPolicy_no_rules (lib : Lib) (e : Event) (p : Policy) (h : p.Rules = []) :
    MatchesPolicy lib e p = .ok (false, e) := by
  unfold MatchesPolicy
  rw [h]
  rfl

/-- Without attribute accessor the first rule evaluation panics. -/
theorem MatchesPolicy_no_attributes (lib : Lib) (e : Event) (p : Policy)
    (ha : Attributes lib e = none) (h : p.Rules ≠ []) :
    MatchesPolicy lib e p = .error Panic.nilPointerDereference := by
  unfold MatchesPolicy
  cases hr : p.Rules with
  | nil => exact absurd hr h
  | cons r rs => simp [MatchesPolicyRules, ha]

theorem Attributes_none_ObjectRef {lib : Lib} {e : Event} (ha : Attributes lib e = none) :
    e.ObjectRef = none := by
  unfold Attributes NewAttributes at ha
  cases ho : e.ObjectRef with
  | none => rfl
  | some o => simp [ho] at ha

theorem heuristicRules_no_attributes (lib : Lib) (e : Event) (ha : Attributes lib e = none) :
    heuristicRules lib e = .error Panic.nilPointerDereference := by
  unfold heuristicRules attributesIsReadOnly
  simp [Attributes_none_ObjectRef ha, ha]

theorem find_lowest_index {α : Type} (f : α → Bool) (l : List α) (r : α)
    (h : l.find? f = some r) :
    ∃ i : Nat, l[i]? = some r ∧ f r = true ∧ ∀ j : Nat, j < i → ∀ x, l[j]? = some x → f x = false := by
  induction l with
  | nil => simp at h
  | cons a as ih =>
    by_cases ha : f a = true
    · rw [List.find?_cons_of_pos _ ha] at h
      cases h
      exact ⟨0, by simp, ha, fun j hj => absurd hj (Nat.not_lt_zero j)⟩
    · rw [List.find?_cons_of_neg _ ha] at h
      obtain ⟨i, hi, hr, hlt⟩ := ih h
      refine ⟨i + 1, by simpa using hi, hr, ?_⟩
      intro j hj x hx
      cases j with
      | zero =>
        simp at hx
        subst hx
        simpa using ha
      | succ k =>
        exact hlt k (Nat.lt_of_succ_lt_succ hj) x (by simpa using hx)

/-- C2 (as stated, refuted): for a request without object reference whose
request URI does not parse, Attributes returns the nil accessor and the first
rule evaluation of MatchesPolicy panics: the call returns neither true nor
false. -/
theorem C2_counterexample :
    Attributes specLib requestWithoutURI = none ∧
      MatchesPolicy specLib requestWithoutURI logEverything =
        .error Panic.nilPointerDereference :=
  ⟨rfl, rfl⟩

/-- C2 (amended): for every event whose attribute accessor exists and every
policy, MatchesPolicy returns; it returns true iff some rule of the policy
matches the attributes of the event; on a match the event gets the level of
the first (lowest-index) matching rule, the response object is cleared iff
that level is below RequestResponse, the request object is cleared iff it is
below Request, and nothing else changes; without a match (in particular for a
policy with no rules) the event is unchanged. -/
theorem C2_MatchesPolicy_first_match (lib : Lib) (e : Event) (p : Policy)
    (a : AuthzAttributes) (ha : Attributes lib e = some a) :
    ∃ b e', MatchesPolicy lib e p = .ok (b, e') ∧
      (b = true ↔ ∃ r, r ∈ p.Rules ∧ lib.ruleMatches r a = true) ∧
      ((b, e') =
        match firstMatch lib p e with
        | some r => (true, withRuleLevel e r.Level)
        | none => (false, e)) ∧
      (∀ r, firstMatch lib p e = some r →
        ∃ i : Nat, p.Rules[i]? = some r ∧ lib.ruleMatches r a = true ∧
          ∀ j : Nat, j < i → ∀ x, p.Rules[j]? = some x → lib.ruleMatches x a = false) := by
  have hfm : firstMatch lib p e = p.Rules.find? (fun r => lib.ruleMatches r a) := by
    unfold firstMatch
    rw [ha]
  refine ⟨_, _, MatchesPolicy_eq lib e p a ha, ?_, rfl, ?_⟩
  · cases hf : firstMatch lib p e with
    | none =>
      simp only [Bool.false_eq_true, false_iff, not_exists, not_and]
      intro r hr
      rw [hfm, List.find?_eq_none] at hf
      simpa using hf r hr
    | some r =>
      simp only [true_iff]
      rw [hfm] at hf
      exact ⟨r, List.mem_of_find?_eq_some hf,
        List.find?_some (p := fun r => lib.ruleMatches r a) hf⟩
  · intro r hr
    rw [hfm] at hr
    exact find_lowest_index _ p.Rules r hr

/-- Witness for C2 (amended): the controller patch has an attribute accessor
and the rule of the log-everything policy matches it. -/
theorem C2_MatchesPolicy_first_match_witness :
    Attributes specLib controllerPatch = some controllerPatchAttributes ∧
      MatchesPolicy specLib controllerPatch logEverything = .ok (true, controllerPatch) ∧
      ∃ b e', MatchesPolicy specLib controllerPatch logEverything = .ok (b, e') ∧
        (b = true ↔ ∃ r, r ∈ logEverything.Rules ∧
          specLib.ruleMatches r controllerPatchAttributes = true) ∧
        ((b, e') =
          match firstMatch specLib logEverything controllerPatch with
          | some r => (true, withRuleLevel controllerPatch r.Level)
          | none => (false, controllerPatch)) ∧
        (∀ r, firstMatch specLib logEverything controllerPatch = some r →
          ∃ i : Nat, logEverything.Rules[i]? = some r ∧
            specLib.ruleMatches r controllerPatchAttributes = true ∧
            ∀ j : Nat, j < i → ∀ x, logEverything.Rules[j]? = some x →
              specLib.ruleMatches x controllerPatchAttributes = false) :=
  ⟨rfl, rfl,
    C2_MatchesPolicy_first_match specLib controllerPatch logEverything
      controllerPatchAttributes rfl⟩

/-! ## The stages of FilterEvent -/

/-- Without attribute accessor the policy check or the first rule for
uncovered events panics. -/
theorem rulesStage_no_attributes (lib : Lib) (p : Policy) (e : Event)
    (ha : Attributes lib e = none) :
    rulesStage lib p e = .error Panic.nilPointerDereference := by
  unfold rulesStage
  by_cases h : p.Rules = []
  · rw [MatchesPolicy_no_rules lib e p h]
    simp only
    rw [heuristicRules_no_attributes lib e ha]
  · rw [MatchesPolicy_no_attributes lib e p ha h]

theorem rulesStage_eq (lib : Lib) (p : Policy) (e : Event) :
    rulesStage lib p e =
      if Attributes lib e = none then .error Panic.nilPointerDereference
      else
        match firstMatch lib p e with
        | some r =>
          if r.Level = Level.None then .ok (some true, withRuleLevel e r.Level)
          else .ok (none, withRuleLevel e r.Level)
        | none =>
          match heuristicRules lib e with
          | .error x => .error x
          | .ok v => .ok (v, e) := by
  cases ha : Attributes lib e with
  | none =>
    rw [if_pos rfl]
    exact rulesStage_no_attributes lib p e ha
  | some a =>
    rw [if_neg (by simp)]
    unfold rulesStage
    rw [MatchesPolicy_eq lib e p a ha]
    cases firstMatch lib p e with
    | none => rfl
    | some r => simp [withRuleLevel, Drop]

theorem withRuleLevel_consistent (e : Event) (l : Level) (h : l ≠ Level.None) :
    Consistent (withRuleLevel e l) := by
  cases l <;> simp_all [Consistent, withRuleLevel, ordLevel]

theorem filterTail_keep {lib : Lib} {m : Int} {c c' : Option LRU} {e e' : Event}
    (h : filterTail lib m c e = .ok (false, e', c')) :
    ∃ e1, responseStatusDrop e = .ok false ∧ updateToPatch lib c e = .ok (e1, c') ∧
      IsEmptyPatch e1 = false ∧
      e' = reduceToMetadata m (stripAnnotations lib m (downgradeLevel e1)) := by
  unfold filterTail at h
  split at h
  · simp at h
  · simp [Drop] at h
  · split at h
    · simp at h
    · rename_i e1 c1 hu
      split at h
      · simp [Drop] at h
      · rename_i hemp
        simp only [Keep, Except.ok.injEq, Prod.mk.injEq, true_and] at h
        obtain ⟨h1, h2⟩ := h
        subst h1 h2
        exact ⟨e1, by assumption, hu, by simpa using hemp, rfl⟩

theorem ReduceToPatch_effect {lib : Lib} {c c1 : Option LRU} {e e1 : Event} {b : Bool}
    (h : ReduceToPatch lib c e = .ok (b, e1, c1)) :
    (b = false → e1 = e) ∧
    (b = true → ∃ patch, e1 =
      { e with Verb := "patch", RequestObject := e.RequestObject.map (fun _ => Unknown.mk patch) }) := by
  unfold ReduceToPatch at h
  split at h
  · simp at h
  · split at h
    · split at h
      · simp only [Except.ok.injEq, Prod.mk.injEq] at h
        obtain ⟨hb, he, _⟩ := h
        subst hb he
        simp
      · rename_i patch _
        simp only [Except.ok.injEq, Prod.mk.injEq] at h
        obtain ⟨hb, he, _⟩ := h
        subst hb he
        exact ⟨by simp, fun _ => ⟨patch, rfl⟩⟩
    · simp only [Except.ok.injEq, Prod.mk.injEq] at h
      obtain ⟨hb, he, _⟩ := h
      subst hb he
      simp

theorem updateToPatch_effect {lib : Lib} {c c1 : Option LRU} {e e1 : Event}
    (h : updateToPatch lib c e = .ok (e1, c1)) :
    e1.Level = e.Level ∧ e1.ResponseObject = e.ResponseObject ∧
    (e1.RequestObject = none ↔ e.RequestObject = none) ∧
    (e1.Verb = e.Verb ∨ (e.Verb = "update" ∧ e1.Verb = "patch")) := by
  unfold updateToPatch at h
  split at h
  · rename_i hcond
    split at h
    · simp at h
    · rename_i ev cc hr
      obtain ⟨patch, hp⟩ := (ReduceToPatch_effect hr).2 rfl
      split at h
      · simp at h
      · simp only [Except.ok.injEq, Prod.mk.injEq] at h
        obtain ⟨he, _⟩ := h
        subst he
        subst hp
        refine ⟨rfl, rfl, ?_, Or.inr ⟨hcond.1, rfl⟩⟩
        simp
    · rename_i ev cc hr
      have := (ReduceToPatch_effect hr).1 rfl
      simp only [Except.ok.injEq, Prod.mk.injEq] at h
      obtain ⟨he, _⟩ := h
      subst he this
      exact ⟨rfl, rfl, Iff.rfl, Or.inl rfl⟩
  · simp only [Except.ok.injEq, Prod.mk.injEq] at h
    obtain ⟨he, _⟩ := h
    subst he
    exact ⟨rfl, rfl, Iff.rfl, Or.inl rfl⟩

theorem updateToPatch_consistent {lib : Lib} {c c1 : Option LRU} {e e1 : Event}
    (h : updateToPatch lib c e = .ok (e1, c1)) (hc : Consistent e) : Consistent e1 := by
  obtain ⟨hl, hr, hq, _⟩ := updateToPatch_effect h
  unfold Consistent at *
  rw [hl, hr, hq]
  exact hc

theorem finish_verb (lib : Lib) (m : Int) (e : Event) : (finish lib m e).Verb = e.Verb := by
  unfold finish reduceToMetadata stripAnnotations downgradeLevel
  repeat' split
  all_goals rfl

theorem finish_consistent (lib : Lib) (m : Int) (e : Event) (hc : Consistent e) :
    Consistent (finish lib m e) := by
  obtain ⟨h1, h2, h3⟩ := hc
  unfold finish reduceToMetadata
  split
  · simp [Consistent, ordLevel]
  · unfold stripAnnotations downgradeLevel
    rcases e with ⟨lvl, verb, user, oref, uri, rs, req, resp, ann⟩
    cases lvl <;> repeat' split
    all_goals simp_all [Consistent, ordLevel, Level.GreaterOrEqual]

theorem finish_level_le (lib : Lib) (m : Int) (e : Event)
    (h : ordLevel Level.Metadata ≤ ordLevel e.Level) :
    ordLevel (finish lib m e).Level ≤ ordLevel e.Level := by
  unfold finish reduceToMetadata stripAnnotations downgradeLevel
  rcases e with ⟨lvl, verb, user, oref, uri, rs, req, resp, ann⟩
  cases lvl <;> repeat' split
  all_goals simp_all [ordLevel, Level.GreaterOrEqual]

theorem finish_update_patch (lib : Lib) (m : Int) (e : Event) (hc : Consistent e)
    (hv : e.Verb = "update" ∨ e.Verb = "patch") :
    ordLevel (finish lib m e).Level ≤ ordLevel Level.Request ∧
      (finish lib m e).ResponseObject = none := by
  obtain ⟨h1, h2, h3⟩ := hc
  unfold finish reduceToMetadata stripAnnotations downgradeLevel
  rcases e with ⟨lvl, verb, user, oref, uri, rs, req, resp, ann⟩
  cases lvl <;> repeat' split
  all_goals simp_all [ordLevel, Level.GreaterOrEqual]

theorem finish_size (lib : Lib) (m : Int) (e : Event) :
    EstimateOutputSize (finish lib m e) ≤ m ∨
      ((finish lib m e).Level = Level.Metadata ∧ (finish lib m e).RequestObject = none ∧
        (finish lib m e).ResponseObject = none) := by
  unfold finish reduceToMetadata
  split
  · exact Or.inr ⟨rfl, rfl, rfl⟩
  · rename_i h
    exact Or.inl (not_lt.mp h)

theorem heuristicRules_keep {lib : Lib} {e : Event}
    (h : heuristicRules lib e = .ok (some false)) :
    e.User.Username ≠ "" ∧ HasPrefix e.User.Username "system:" = false := by
  unfold heuristicRules at h
  repeat' split at h
  all_goals simp_all [Drop, Keep]

/-- The ways `FilterEvent` keeps an event: the early keep of the rules for
uncovered events, which leaves event and cache untouched, or the final keep
after the common tail, entered with the event `e0` (the input with the level
of the first matching rule applied, or the unmatched input itself). -/
theorem FilterEvent_keep_cases {lib : Lib} {p : Policy} {m : Int} {c c' : Option LRU}
    {e e' : Event} (h : FilterEvent lib p m c e = .ok (false, e', c')) :
    (firstMatch lib p e = none ∧ e.User.Username ≠ "" ∧
        HasPrefix e.User.Username "system:" = false ∧ e' = e ∧ c' = c) ∨
    (∃ e0 e1,
      ((∃ r, firstMatch lib p e = some r ∧ r.Level ≠ Level.None ∧ e0 = withRuleLevel e r.Level) ∨
        (firstMatch lib p e = none ∧ heuristicRules lib e = .ok none ∧ e0 = e)) ∧
      responseStatusDrop e0 = .ok false ∧ updateToPatch lib c e0 = .ok (e1, c') ∧
      IsEmptyPatch e1 = false ∧ e' = finish lib m e1) := by
  unfold FilterEvent at h
  rw [rulesStage_eq] at h
  by_cases ha : Attributes lib e = none
  · simp [ha] at h
  rw [if_neg ha] at h
  cases hf : firstMatch lib p e with
  | some r =>
    rw [hf] at h
    by_cases hl : r.Level = Level.None
    · simp [hl] at h
    · simp only [hl, if_false] at h
      obtain ⟨e1, h1, h2, h3, h4⟩ := filterTail_keep h
      exact Or.inr ⟨_, e1, Or.inl ⟨r, rfl, hl, rfl⟩, h1, h2, h3, h4⟩
  | none =>
    rw [hf] at h
    cases hh : heuristicRules lib e with
    | error x => simp [hh] at h
    | ok v =>
      rw [hh] at h
      cases v with
      | some b =>
        simp only [Except.ok.injEq, Prod.mk.injEq] at h
        obtain ⟨hb, he, hc⟩ := h
        subst hb he hc
        obtain ⟨hu1, hu2⟩ := heuristicRules_keep hh
        exact Or.inl ⟨rfl, hu1, hu2, rfl, rfl⟩
      | none =>
        simp only at h
        obtain ⟨e1, h1, h2, h3, h4⟩ := filterTail_keep h
        exact Or.inr ⟨_, e1, Or.inr ⟨rfl, rfl, rfl⟩, h1, h2, h3, h4⟩

/-! ## Invariants of kept events -/

/-- C1 (as stated, refuted): an event of a human user that no rule matches is
kept untouched, so an input at level Metadata that carries a request object is
kept with its request object. -/
theorem C1_counterexample :
    FilterEvent specLib emptyPolicy 1000000 none aliceCreate = .ok (false, aliceCreate, none) ∧
      ordLevel aliceCreate.Level < ordLevel Level.Request ∧
      aliceCreate.RequestObject ≠ none := by
  refine ⟨rfl, by decide, by decide⟩

/-- C1 (amended): if FilterEvent keeps an event that a policy rule matches, or
an event that is consistent on input, then the resulting event is consistent:
its level is at least Metadata, it has no response object below
RequestResponse and no request object below Request. -/
theorem C1_keep_consistent (lib : Lib) (p : Policy) (m : Int) (c c' : Option LRU)
    (e e' : Event) (hk : FilterEvent lib p m c e = .ok (false, e', c'))
    (hin : firstMatch lib p e ≠ none ∨ Consistent e) :
    ordLevel Level.Metadata ≤ ordLevel e'.Level ∧
      (ordLevel e'.Level < ordLevel Level.RequestResponse → e'.ResponseObject = none) ∧
      (ordLevel e'.Level < ordLevel Level.Request → e'.RequestObject = none) := by
  show Consistent e'
  rcases FilterEvent_keep_cases hk with ⟨hf, _, _, he, _⟩ | ⟨e0, e1, h0, _, hu, _, he⟩
  · subst he
    rcases hin with h | h
    · exact absurd hf h
    · exact h
  · subst he
    apply finish_consistent
    apply updateToPatch_consistent hu
    rcases h0 with ⟨r, _, hl, h0⟩ | ⟨hf, _, h0⟩
    · subst h0
      exact withRuleLevel_consistent e r.Level hl
    · subst h0
      rcases hin with h | h
      · exact absurd hf h
      · exact h

/-- Witness for C1 (amended): the controller event under the log-everything
policy is kept and comes out consistent. -/
theorem C1_keep_consistent_witness :
    FilterEvent specLib logEverything 2005 none controllerCreate =
        .ok (false, controllerCreateReduced, none) ∧
      firstMatch specLib logEverything controllerCreate ≠ none ∧
      (ordLevel Level.Metadata ≤ ordLevel controllerCreateReduced.Level ∧
        (ordLevel controllerCreateReduced.Level < ordLevel Level.RequestResponse →
          controllerCreateReduced.ResponseObject = none) ∧
        (ordLevel controllerCreateReduced.Level < ordLevel Level.Request →
          controllerCreateReduced.RequestObject = none)) :=
  ⟨rfl, by decide,
    C1_keep_consistent specLib logEverything 2005 none none controllerCreate
      controllerCreateReduced rfl (Or.inl (by decide))⟩

/-- C8: every event kept after the size-based reduction (a kept event that a
policy rule matched, or whose user name is empty or starts with system:) has
estimated size at most max-line-length, or has level Metadata with neither
request nor response object. -/
theorem C8_size_reduction (lib : Lib) (p : Policy) (m : Int) (c c' : Option LRU)
    (e e' : Event) (hk : FilterEvent lib p m c e = .ok (false, e', c'))
    (hreach : firstMatch lib p e ≠ none ∨ e.User.Username = "" ∨
      HasPrefix e.User.Username "system:" = true) :
    EstimateOutputSize e' ≤ m ∨
      (e'.Level = Level.Metadata ∧ e'.RequestObject = none ∧ e'.ResponseObject = none) := by
  rcases FilterEvent_keep_cases hk with ⟨hf, hu1, hu2, _, _⟩ | ⟨e0, e1, _, _, _, _, he⟩
  · rcases hreach with h | h | h
    · exact absurd hf h
    · exact absurd h hu1
    · rw [hu2] at h
      exact absurd h (by decide)
  · subst he
    exact finish_size lib m e1

/-- C10: a kept event that a policy rule matches has level at least Metadata
and at most the level of the first matching rule, no response object below
RequestResponse, no request object below Request, and, when its verb is update
or patch, level at most Request and no response object. -/
theorem C10_policy_keep (lib : Lib) (p : Policy) (m : Int) (c c' : Option LRU)
    (e e' : Event) (r : PolicyRule) (hr : firstMatch lib p e = some r)
    (hk : FilterEvent lib p m c e = .ok (false, e', c')) :
    ordLevel Level.Metadata ≤ ordLevel e'.Level ∧
      ordLevel e'.Level ≤ ordLevel r.Level ∧
      (ordLevel e'.Level < ordLevel Level.RequestResponse → e'.ResponseObject = none) ∧
      (ordLevel e'.Level < ordLevel Level.Request → e'.RequestObject = none) ∧
      (e'.Verb = "update" ∨ e'.Verb = "patch" →
        ordLevel e'.Level ≤ ordLevel Level.Request ∧ e'.ResponseObject = none) := by
  rcases FilterEvent_keep_cases hk with ⟨hf, _, _, _, _⟩ | ⟨e0, e1, h0, _, hu, _, he⟩
  · rw [hf] at hr
    exact absurd hr (by simp)
  · rcases h0 with ⟨r0, hr0, hl, h0⟩ | ⟨hf, _, _⟩
    · rw [hr0] at hr
      cases hr
      subst h0
      have hc0 : Consistent (withRuleLevel e r.Level) := withRuleLevel_consistent e r.Level hl
      have hc1 : Consistent e1 := updateToPatch_consistent hu hc0
      have hlev : e1.Level = r.Level := (updateToPatch_effect hu).1
      have hc : Consistent (finish lib m e1) := finish_consistent lib m e1 hc1
      subst he
      refine ⟨hc.1, ?_, hc.2.1, hc.2.2, ?_⟩
      · rw [← hlev]
        exact finish_level_le lib m e1 hc1.1
      · intro hv
        rw [finish_verb] at hv
        exact finish_update_patch lib m e1 hc1 hv
    · rw [hf] at hr
      exact absurd hr (by simp)

/-- Witness for C8: the controller event exceeds the limit 2005 with its
response body and is kept at level Metadata without objects. -/
theorem C8_size_reduction_witness :
    FilterEvent specLib logEverything 2005 none controllerCreate =
        .ok (false, controllerCreateReduced, none) ∧
      (EstimateOutputSize controllerCreateReduced ≤ 2005 ∨
        (controllerCreateReduced.Level = Level.Metadata ∧
          controllerCreateReduced.RequestObject = none ∧
          controllerCreateReduced.ResponseObject = none)) :=
  ⟨rfl, C8_size_reduction specLib logEverything 2005 none none controllerCreate
      controllerCreateReduced rfl (Or.inl (by decide))⟩

/-- Witness for C10: the controller patch under the log-everything policy is
kept at level Request without its response object. -/
theorem C10_policy_keep_witness :
    firstMatch specLib logEverything controllerPatch = some (ruleForAll Level.RequestResponse) ∧
      FilterEvent specLib logEverything 1000000 none controllerPatch =
        .ok (false, controllerPatchDowngraded, none) ∧
      (ordLevel Level.Metadata ≤ ordLevel controllerPatchDowngraded.Level ∧
        ordLevel controllerPatchDowngraded.Level ≤
          ordLevel (ruleForAll Level.RequestResponse).Level ∧
        (ordLevel controllerPatchDowngraded.Level < ordLevel Level.RequestResponse →
          controllerPatchDowngraded.ResponseObject = none) ∧
        (ordLevel controllerPatchDowngraded.Level < ordLevel Level.Request →
          controllerPatchDowngraded.RequestObject = none) ∧
        (controllerPatchDowngraded.Verb = "update" ∨ controllerPatchDowngraded.Verb = "patch" →
          ordLevel controllerPatchDowngraded.Level ≤ ordLevel Level.Request ∧
            controllerPatchDowngraded.ResponseObject = none)) :=
  ⟨rfl, rfl,
    C10_policy_keep specLib logEverything 1000000 none none controllerPatch
      controllerPatchDowngraded (ruleForAll Level.RequestResponse) rfl rfl⟩

/-! ## Panics and the empty-patch predicate -/

/-- On an event with a response status the response-status filter drops
exactly the codes 404, 409 and 422. -/
theorem responseStatusDrop_present (e : Event) (st : Status) (h : e.ResponseStatus = some st) :
    ∃ b, responseStatusDrop e = .ok b ∧
      (b = true ↔ st.Code = 404 ∨ st.Code = 409 ∨ st.Code = 422) := by
  unfold responseStatusDrop
  rw [h]
  exact ⟨_, rfl, by simp [or_assoc]⟩

/-- Without a response status the common tail of FilterEvent panics. -/
theorem filterTail_absent_status (lib : Lib) (m : Int) (c : Option LRU) (e : Event)
    (h : e.ResponseStatus = none) :
    filterTail lib m c e = .error Panic.nilPointerDereference := by
  unfold filterTail responseStatusDrop
  rw [h]

/-- C3 (failing input): a create by a controller on a non-resource path, which
no rule matches, is not passed on to the response-status filter: its request
URI parses, so the attribute accessor exists and the read-only checks return,
and then the configmap rule reads the resource of the absent object reference
and the call panics. -/
theorem C3_absent_ObjectRef_panics :
    (Attributes specLib controllerCreateNoRef).isSome = true ∧
      attributesIsReadOnly specLib controllerCreateNoRef = .ok false ∧
      rulesStage specLib emptyPolicy controllerCreateNoRef =
        .error Panic.nilPointerDereference ∧
      FilterEvent specLib emptyPolicy 1000000 none controllerCreateNoRef =
        .error Panic.nilPointerDereference :=
  ⟨rfl, rfl, rfl, rfl⟩

/-- C4 (failing input): an event without response status reaches the
response-status filter and the call panics there instead of moving on to the
update-to-patch step. -/
theorem C4_absent_ResponseStatus_panics :
    rulesStage specLib emptyPolicy controllerCreateNoStatus =
        .ok (none, controllerCreateNoStatus) ∧
      responseStatusDrop controllerCreateNoStatus = .error Panic.nilPointerDereference ∧
      FilterEvent specLib emptyPolicy 1000000 none controllerCreateNoStatus =
        .error Panic.nilPointerDereference :=
  ⟨rfl, rfl, rfl⟩

/-- C5 (failing inputs): IsEmptyPatch reports an update at level Metadata
without request object as empty, and an update at level None with a non-empty
body as not empty. -/
theorem C5_IsEmptyPatch_update :
    IsEmptyPatch updateAtMetadata = true ∧ IsEmptyPatch updateAtNone = false :=
  ⟨by decide, by decide⟩

/-! ## The filter worker with no-filter -/

/-- C9 (failing input): with no-filter the worker still runs FilterEvent on
the event and forwards what FilterEvent left of it: under the Metadata policy
the forwarded event has lost the request object of the decoded event. -/
theorem C9_nofilter_forwards_mutated :
    filterStep specLib metadataOnly 1000000 true none aliceCreate =
        .ok (some aliceCreateMetadata, none) ∧
      aliceCreate.RequestObject ≠ none ∧
      aliceCreateMetadata.RequestObject = none ∧
      aliceCreateMetadata ≠ aliceCreate :=
  ⟨rfl, by decide, rfl, by decide⟩

/-- With no-filter, whenever FilterEvent returns a verdict (drop or keep) the
worker forwards the event as FilterEvent left it. -/
theorem filterStep_nofilter (lib : Lib) (p : Policy) (m : Int) (c c' : Option LRU)
    (e e' : Event) (v : Bool) (h : FilterEvent lib p m c e = .ok (v, e', c')) :
    filterStep lib p m true c e = .ok (some e', c') := by
  unfold filterStep
  rw [h]
  simp

/-! ## Running the filter again on a survivor -/

theorem len_nonneg (b : Bytes) : 0 ≤ len b := by
  unfold len
  split
  · exact le_refl 0
  · exact Int.ofNat_nonneg _

theorem EstimateOutputSize_downgradeLevel_le (e : Event) :
    EstimateOutputSize (downgradeLevel e) ≤ EstimateOutputSize e := by
  unfold downgradeLevel
  split
  · unfold EstimateOutputSize
    cases hq : e.RequestObject <;> cases hr : e.ResponseObject <;> simp
    all_goals exact len_nonneg _
  · exact le_refl _

theorem EstimateOutputSize_withRuleLevel_le (e : Event) (l : Level) :
    EstimateOutputSize (withRuleLevel e l) ≤ EstimateOutputSize e := by
  unfold withRuleLevel EstimateOutputSize
  cases hq : e.RequestObject <;> cases hr : e.ResponseObject <;> cases l <;> simp [ordLevel]
  all_goals first
    | exact len_nonneg _
    | (rename_i a b
       have ha := len_nonneg a.Raw
       have hb := len_nonneg b.Raw
       omega)

theorem finish_small (lib : Lib) (m : Int) (e : Event) (hs : EstimateOutputSize e ≤ m) :
    finish lib m e = downgradeLevel e := by
  have hd : EstimateOutputSize (downgradeLevel e) ≤ m :=
    le_trans (EstimateOutputSize_downgradeLevel_le e) hs
  have h1 : stripAnnotations lib m (downgradeLevel e) = downgradeLevel e := by
    unfold stripAnnotations
    split
    · rw [if_neg (not_lt.mpr hd)]
    · rfl
  unfold finish
  rw [h1]
  unfold reduceToMetadata
  rw [if_neg (not_lt.mpr hd)]

theorem updateToPatch_not_update (lib : Lib) (c : Option LRU) (e : Event)
    (hv : e.Verb ≠ "update") : updateToPatch lib c e = .ok (e, c) := by
  unfold updateToPatch
  rw [if_neg (fun h => hv h.1)]

theorem filterTail_small (lib : Lib) (m : Int) (c : Option LRU) (x : Event)
    (hv : x.Verb ≠ "update") (hs : EstimateOutputSize x ≤ m) :
    filterTail lib m c x =
      match responseStatusDrop x with
      | .error p => .error p
      | .ok true => .ok (true, x, c)
      | .ok false =>
        if IsEmptyPatch x then .ok (true, x, c) else .ok (false, downgradeLevel x, c) := by
  unfold filterTail
  rw [updateToPatch_not_update lib c x hv]
  have hf := finish_small lib m x hs
  unfold finish at hf
  simp only [hf, Drop, Keep]

theorem downgradeLevel_idem_rule (e : Event) (l : Level) :
    downgradeLevel (withRuleLevel (downgradeLevel (withRuleLevel e l)) l) =
      downgradeLevel (withRuleLevel e l) := by
  rcases e with ⟨lvl, verb, user, oref, uri, rs, req, resp, ann⟩
  by_cases hv : verb = "update" ∨ verb = "patch" <;>
    cases l <;> simp [downgradeLevel, withRuleLevel, ordLevel, Level.GreaterOrEqual, hv]

theorem IsEmptyPatch_rerun_rule (e : Event) (l : Level) :
    IsEmptyPatch (withRuleLevel (downgradeLevel (withRuleLevel e l)) l) =
      IsEmptyPatch (withRuleLevel e l) := by
  rcases e with ⟨lvl, verb, user, oref, uri, rs, req, resp, ann⟩
  by_cases hv : verb = "update" ∨ verb = "patch" <;>
    cases l <;>
    simp [IsEmptyPatch, downgradeLevel, withRuleLevel, ordLevel, Level.GreaterOrEqual, hv]

theorem downgradeLevel_idem (e : Event) : downgradeLevel (downgradeLevel e) = downgradeLevel e := by
  rcases e with ⟨lvl, verb, user, oref, uri, rs, req, resp, ann⟩
  by_cases hv : verb = "update" ∨ verb = "patch" <;>
    cases lvl <;> simp [downgradeLevel, ordLevel, Level.GreaterOrEqual, hv]

theorem IsEmptyPatch_downgradeLevel (e : Event) :
    IsEmptyPatch (downgradeLevel e) = IsEmptyPatch e := by
  rcases e with ⟨lvl, verb, user, oref, uri, rs, req, resp, ann⟩
  by_cases hv : verb = "update" ∨ verb = "patch" <;>
    cases lvl <;> simp [IsEmptyPatch, downgradeLevel, ordLevel, Level.GreaterOrEqual, hv]

theorem Attributes_downgradeLevel (lib : Lib) (e : Event) :
    Attributes lib (downgradeLevel e) = Attributes lib e := by
  unfold downgradeLevel
  split <;> rfl

theorem Attributes_withRuleLevel (lib : Lib) (e : Event) (l : Level) :
    Attributes lib (withRuleLevel e l) = Attributes lib e := rfl

theorem heuristicRules_downgradeLevel (lib : Lib) (e : Event) :
    heuristicRules lib (downgradeLevel e) = heuristicRules lib e := by
  have hA := Attributes_downgradeLevel lib e
  unfold heuristicRules attributesIsReadOnly
  rw [hA]
  generalize Attributes lib e = oa
  rcases e with ⟨lvl, verb, user, oref, uri, rs, req, resp, ann⟩
  by_cases hv : verb = "update" ∨ verb = "patch" <;>
    cases lvl <;>
    simp [downgradeLevel, ordLevel, Level.GreaterOrEqual, Level.Less, hv, Drop, Keep]

theorem downgradeLevel_verb (e : Event) : (downgradeLevel e).Verb = e.Verb := by
  unfold downgradeLevel
  split <;> rfl

theorem downgradeLevel_status (e : Event) :
    (downgradeLevel e).ResponseStatus = e.ResponseStatus := by
  unfold downgradeLevel
  split <;> rfl

theorem firstMatch_congr (lib : Lib) (p : Policy) (e1 e2 : Event)
    (h : Attributes lib e1 = Attributes lib e2) : firstMatch lib p e1 = firstMatch lib p e2 := by
  unfold firstMatch
  rw [h]

theorem responseStatusDrop_congr (e1 e2 : Event) (h : e1.ResponseStatus = e2.ResponseStatus) :
    responseStatusDrop e1 = responseStatusDrop e2 := by
  unfold responseStatusDrop
  rw [h]

/-- The second run on a survivor of the common tail, for an event that a rule
of level `l` matched. -/
theorem rerun_rule (lib : Lib) (m : Int) (c : Option LRU) (e : Event) (l : Level)
    (hv : e.Verb ≠ "update") (hs : EstimateOutputSize e ≤ m)
    (hst : responseStatusDrop (withRuleLevel e l) = .ok false)
    (hemp : IsEmptyPatch (withRuleLevel e l) = false) :
    filterTail lib m c (withRuleLevel (downgradeLevel (withRuleLevel e l)) l) =
      .ok (false, downgradeLevel (withRuleLevel e l), c) := by
  have hv1 : (withRuleLevel (downgradeLevel (withRuleLevel e l)) l).Verb ≠ "update" := by
    show (downgradeLevel (withRuleLevel e l)).Verb ≠ "update"
    rw [downgradeLevel_verb]
    exact hv
  have hs1 : EstimateOutputSize (withRuleLevel (downgradeLevel (withRuleLevel e l)) l) ≤ m :=
    le_trans (EstimateOutputSize_withRuleLevel_le _ _)
      (le_trans (EstimateOutputSize_downgradeLevel_le _)
        (le_trans (EstimateOutputSize_withRuleLevel_le _ _) hs))
  have hst1 : responseStatusDrop (withRuleLevel (downgradeLevel (withRuleLevel e l)) l) =
      .ok false := by
    rw [← hst]
    apply responseStatusDrop_congr
    show (downgradeLevel (withRuleLevel e l)).ResponseStatus = _
    rw [downgradeLevel_status]
  rw [filterTail_small lib m c _ hv1 hs1, hst1]
  simp [IsEmptyPatch_rerun_rule, hemp, downgradeLevel_idem_rule]

/-- The second run on a survivor whose verb is not update and whose estimated
size on input is within the limit returns the survivor and the cache as they
are. -/
theorem rerun_unchanged_small (lib : Lib) (p : Policy) (m : Int) (c c' : Option LRU)
    (e e' : Event) (hv : e.Verb ≠ "update") (hs : EstimateOutputSize e ≤ m)
    (hk : FilterEvent lib p m c e = .ok (false, e', c')) :
    FilterEvent lib p m c' e' = .ok (false, e', c') := by
  have hk0 := hk
  unfold FilterEvent at hk
  rw [rulesStage_eq] at hk
  by_cases ha : Attributes lib e = none
  · simp [ha] at hk
  rw [if_neg ha] at hk
  cases hf : firstMatch lib p e with
  | some r =>
    rw [hf] at hk
    by_cases hl : r.Level = Level.None
    · simp [hl] at hk
    · simp only [hl, if_false] at hk
      have hv0 : (withRuleLevel e r.Level).Verb ≠ "update" := hv
      have hs0 : EstimateOutputSize (withRuleLevel e r.Level) ≤ m :=
        le_trans (EstimateOutputSize_withRuleLevel_le _ _) hs
      rw [filterTail_small lib m c _ hv0 hs0] at hk
      cases hst : responseStatusDrop (withRuleLevel e r.Level) with
      | error x => simp [hst] at hk
      | ok b =>
        rw [hst] at hk
        cases b with
        | true => simp at hk
        | false =>
          cases hemp : IsEmptyPatch (withRuleLevel e r.Level) with
          | true => simp [hemp] at hk
          | false =>
            simp only [hemp, Bool.false_eq_true, if_false, Except.ok.injEq, Prod.mk.injEq,
              true_and] at hk
            obtain ⟨he, hc⟩ := hk
            subst he hc
            have hf1 : firstMatch lib p (downgradeLevel (withRuleLevel e r.Level)) = some r := by
              rw [← hf]
              apply firstMatch_congr
              rw [Attributes_downgradeLevel]
              rfl
            have ha1 : ¬ Attributes lib (downgradeLevel (withRuleLevel e r.Level)) = none := by
              rw [Attributes_downgradeLevel, Attributes_withRuleLevel]
              exact ha
            unfold FilterEvent
            rw [rulesStage_eq, if_neg ha1, hf1]
            simp only [hl, if_false]
            exact rerun_rule lib m c e r.Level hv hs hst hemp
  | none =>
    rw [hf] at hk
    cases hh : heuristicRules lib e with
    | error x => simp [hh] at hk
    | ok v =>
      rw [hh] at hk
      cases v with
      | some b =>
        simp only [Except.ok.injEq, Prod.mk.injEq] at hk
        obtain ⟨_, he, hc⟩ := hk
        subst he hc
        exact hk0
      | none =>
        simp only at hk
        rw [filterTail_small lib m c _ hv hs] at hk
        cases hst : responseStatusDrop e with
        | error x => simp [hst] at hk
        | ok b =>
          rw [hst] at hk
          cases b with
          | true => simp at hk
          | false =>
            cases hemp : IsEmptyPatch e with
            | true => simp [hemp] at hk
            | false =>
              simp only [hemp, Bool.false_eq_true, if_false, Except.ok.injEq, Prod.mk.injEq,
                true_and] at hk
              obtain ⟨he, hc⟩ := hk
              subst he hc
              have hf1 : firstMatch lib p (downgradeLevel e) = none := by
                rw [← hf]
                apply firstMatch_congr
                rw [Attributes_downgradeLevel]
              have hv1 : (downgradeLevel e).Verb ≠ "update" := by
                rw [downgradeLevel_verb]
                exact hv
              have hs1 : EstimateOutputSize (downgradeLevel e) ≤ m :=
                le_trans (EstimateOutputSize_downgradeLevel_le _) hs
              have hst1 : responseStatusDrop (downgradeLevel e) = .ok false := by
                rw [← hst]
                exact responseStatusDrop_congr _ _ (downgradeLevel_status e)
              have ha1 : ¬ Attributes lib (downgradeLevel e) = none := by
                rw [Attributes_downgradeLevel]
                exact ha
              unfold FilterEvent
              rw [rulesStage_eq, if_neg ha1, hf1, heuristicRules_downgradeLevel, hh]
              simp only
              rw [filterTail_small lib m c _ hv1 hs1, hst1]
              simp [IsEmptyPatch_downgradeLevel, hemp, downgradeLevel_idem]

/-- C7 (as stated, refuted): the controller event is kept at level Metadata
by the size reduction; a second run keeps it too but applies the rule level
again, which now fits the limit, so the survivor changes and its level rises
to RequestResponse. -/
theorem C7_counterexample :
    FilterEvent specLib logEverything 2005 none controllerCreate =
        .ok (false, controllerCreateReduced, none) ∧
      FilterEvent specLib logEverything 2005 none controllerCreateReduced =
        .ok (false, controllerCreateRaised, none) ∧
      ordLevel controllerCreateReduced.Level < ordLevel controllerCreateRaised.Level ∧
      controllerCreateRaised ≠ controllerCreateReduced :=
  ⟨rfl, rfl, by decide, by decide⟩

theorem heuristicRules_human {lib : Lib} {e : Event} (h1 : e.User.Username ≠ "")
    (h2 : HasPrefix e.User.Username "system:" = false) :
    heuristicRules lib e ≠ .ok none := by
  unfold heuristicRules
  split
  · simp
  · simp [Drop]
  · rw [if_pos ⟨h1, by simp [h2]⟩]
    simp [Keep]

/-- C7 (amended): FilterEvent is idempotent on the survivors of the
keep-all-user-events rule (no rule matches, the user name is non-empty and
does not start with system:) and on the survivors whose verb is not update and
whose estimated size on input is within max-line-length: if FilterEvent keeps
such an event and yields the event and cache (e2, c2), then running
FilterEvent on e2 with the cache c2 keeps it again and leaves event and cache
unchanged. -/
theorem C7_rerun_unchanged (lib : Lib) (p : Policy) (m : Int) (c c' : Option LRU)
    (e e' : Event)
    (hcase : (firstMatch lib p e = none ∧ e.User.Username ≠ "" ∧
        HasPrefix e.User.Username "system:" = false) ∨
      (e.Verb ≠ "update" ∧ EstimateOutputSize e ≤ m))
    (hk : FilterEvent lib p m c e = .ok (false, e', c')) :
    FilterEvent lib p m c' e' = .ok (false, e', c') := by
  rcases hcase with ⟨hf, hu1, hu2⟩ | ⟨hv, hs⟩
  · rcases FilterEvent_keep_cases hk with ⟨_, _, _, he, hc⟩ | ⟨e0, e1, h0, _, _, _, _⟩
    · subst he hc
      exact hk
    · rcases h0 with ⟨r, hr, _, _⟩ | ⟨_, hh, _⟩
      · rw [hf] at hr
        exact absurd hr (by simp)
      · exact absurd hh (heuristicRules_human hu1 hu2)
  · exact rerun_unchanged_small lib p m c c' e e' hv hs hk

/-- Witness for C7 (amended): the controller patch is kept with its level
downgraded, and the second run returns the same event. -/
theorem C7_rerun_unchanged_witness :
    controllerPatch.Verb ≠ "update" ∧ EstimateOutputSize controllerPatch ≤ 1000000 ∧
      FilterEvent specLib logEverything 1000000 none controllerPatch =
        .ok (false, controllerPatchDowngraded, none) ∧
      FilterEvent specLib logEverything 1000000 none controllerPatchDowngraded =
        .ok (false, controllerPatchDowngraded, none) :=
  ⟨by decide, by decide, rfl,
    C7_rerun_unchanged specLib logEverything 1000000 none none controllerPatch
      controllerPatchDowngraded (Or.inr ⟨by decide, by decide⟩) rfl⟩

/-- A survivor within the size limit can be dropped by the second run as well:
the first update of the scenario is kept as an update and stored in the cache;
the second run finds it there as its own previous version, turns it into the
empty patch and drops it. -/
theorem update_survivor_rerun_dropped :
    ∃ c' e2, FilterEvent scenarioLib requestOnly 1000000 none (controllerUpdateOf bodyV1) =
          .ok (false, controllerUpdateOf bodyV1, c') ∧
      FilterEvent scenarioLib requestOnly 1000000 c' (controllerUpdateOf bodyV1) =
          .ok (true, e2, c') ∧
      e2.Verb = "patch" ∧ e2.RequestObject = some (Unknown.mk (some "\x7b\x7d")) :=
  ⟨_, _, rfl, rfl, rfl, rfl⟩

theorem EstimateOutputSize_pos (e : Event) : 0 < EstimateOutputSize e := by
  unfold EstimateOutputSize
  cases hq : e.RequestObject <;> cases hr : e.ResponseObject <;> simp
  all_goals first
    | (rename_i a
       have ha := len_nonneg a.Raw
       omega)
    | (rename_i a b
       have ha := len_nonneg a.Raw
       have hb := len_nonneg b.Raw
       omega)

theorem reduceToMetadata_zero (e : Event) :
    reduceToMetadata 0 e =
      { e with Level := Level.Metadata, RequestObject := none, ResponseObject := none } := by
  unfold reduceToMetadata
  rw [if_pos (EstimateOutputSize_pos e)]

/-- A survivor can also be dropped by the second run, whatever the JSON
routines compute: with max-line-length 0 an update matched at level Request is
kept at level Metadata without its request object; the second run applies the
rule level again and then drops the update as an empty patch. -/
theorem update_survivor_dropped (Obj : Type) (unmarshal : Bytes → Obj)
    (remove : Obj → List String → Obj) (marshal : Obj → Bytes)
    (patch : Bytes → Bytes → Bytes → Option Bytes) :
    (∃ c', FilterEvent (specLibWith Obj unmarshal remove marshal patch) requestOnly 0 none
          controllerUpdate = .ok (false, updateAtMetadata, c')) ∧
      (∀ c', FilterEvent (specLibWith Obj unmarshal remove marshal patch) requestOnly 0 c'
          updateAtMetadata = .ok (true, { updateAtMetadata with Level := Level.Request }, c')) := by
  constructor
  · have h1 : rulesStage (specLibWith Obj unmarshal remove marshal patch) requestOnly
        controllerUpdate = .ok (none, controllerUpdate) := rfl
    have h2 : ∃ c', updateToPatch (specLibWith Obj unmarshal remove marshal patch) none
        controllerUpdate = .ok (controllerUpdate, c') := ⟨_, rfl⟩
    obtain ⟨c', h2⟩ := h2
    refine ⟨c', ?_⟩
    unfold FilterEvent
    rw [h1]
    simp only
    unfold filterTail
    have h3 : responseStatusDrop controllerUpdate = .ok false := rfl
    rw [h3]
    simp only
    rw [h2]
    simp only
    have h4 : IsEmptyPatch controllerUpdate = false := by decide
    rw [h4]
    simp only [Bool.false_eq_true, if_false, reduceToMetadata_zero, Keep]
    rfl
  · intro c'
    rfl

/-! ## The prior-version cache and the update-to-patch step -/

theorem LRU_Get_size (c : LRU) (key : String) : (c.Get key).2.size = c.size := by
  unfold LRU.Get
  split <;> rfl

theorem LRU_Get_Add (c : LRU) (key : String) (v : Bytes) (h : 0 < c.size) :
    ((c.Add key v).Get key).1 = some v := by
  obtain ⟨n, hn⟩ : ∃ n, c.size = n + 1 := ⟨c.size - 1, by omega⟩
  unfold LRU.Add LRU.Get
  simp [hn, List.take_succ_cons]

theorem LRU_Add_size (c : LRU) (key : String) (v : Bytes) : (c.Add key v).size = c.size := rfl

theorem mapGet_mapSet (m : List (String × String)) (k v : String) :
    mapGet (some (mapSet m k v)) k = some v := by
  unfold mapGet mapSet
  induction m with
  | nil => simp
  | cons a as ih =>
    by_cases ha : a.1 = k
    · simp [ha]
    · by_cases hany : (as.any fun kv => kv.1 == k) = true
      · simp only [hany, if_true] at ih
        simp [ha, hany, List.find?_cons_of_neg]
        simpa using ih
      · simp only [hany] at ih
        simp [ha, hany, List.find?_cons_of_neg]
        simpa using ih

theorem GetPreviousVersion_eq (lib : Lib) (cache : Option LRU) (e : Event) (ro : Unknown)
    (h : e.RequestObject = some ro) :
    GetPreviousVersion lib cache e =
      .ok ((canonicalBody lib e,
            ((cacheOrNew cache).Get (beforeQuery e.RequestURI)).1.getD none,
            ((cacheOrNew cache).Get (beforeQuery e.RequestURI)).1.isSome),
           some (cacheAfter lib cache e)) := by
  unfold GetPreviousVersion cacheAfter canonicalBody
  simp only [h]
  have hc : (match cache with
      | none => LRU.New 1000
      | some c => c) = cacheOrNew cache := rfl
  rw [hc]
  rcases hg : (cacheOrNew cache).Get (beforeQuery e.RequestURI) with ⟨x, c1⟩
  cases x <;> simp

theorem updateToPatch_hit (lib : Lib) (cache : Option LRU) (e : Event) (ro : Unknown)
    (m0 : List (String × String)) (prev q : Bytes)
    (hv : e.Verb = "update") (hro : e.RequestObject = some ro) (han : e.Annotations = some m0)
    (hget : ((cacheOrNew cache).Get (beforeQuery e.RequestURI)).1 = some prev)
    (hp : lib.CreateThreeWayJSONMergePatch prev (canonicalBody lib e) prev = some q) :
    updateToPatch lib cache e =
      .ok ({ e with Verb := "patch", RequestObject := some (Unknown.mk q),
                    Annotations := some (mapSet m0 "converted-to-patch" "true") },
           some (cacheAfter lib cache e)) := by
  unfold updateToPatch
  rw [if_pos ⟨hv, by simp [hro]⟩]
  unfold ReduceToPatch
  rw [GetPreviousVersion_eq lib cache e ro hro]
  simp [hget, hp, han, hro]

theorem updateToPatch_total (lib : Lib) (cache : Option LRU) (e : Event) (ro : Unknown)
    (m0 : List (String × String))
    (hv : e.Verb = "update") (hro : e.RequestObject = some ro) (han : e.Annotations = some m0) :
    ∃ e1, updateToPatch lib cache e = .ok (e1, some (cacheAfter lib cache e)) := by
  unfold updateToPatch
  rw [if_pos ⟨hv, by simp [hro]⟩]
  unfold ReduceToPatch
  rw [GetPreviousVersion_eq lib cache e ro hro]
  by_cases hs : ((cacheOrNew cache).Get (beforeQuery e.RequestURI)).1.isSome = true
  · cases hp : lib.CreateThreeWayJSONMergePatch
        (((cacheOrNew cache).Get (beforeQuery e.RequestURI)).1.getD none) (canonicalBody lib e)
        (((cacheOrNew cache).Get (beforeQuery e.RequestURI)).1.getD none) with
    | none => simp [hs, hp]
    | some q => simp [hs, hp, han]
  · simp [hs]

theorem finish_annotations (lib : Lib) (m : Int) (e : Event) :
    (finish lib m e).Annotations = e.Annotations := by
  unfold finish reduceToMetadata stripAnnotations downgradeLevel
  repeat' split
  all_goals rfl

theorem IsEmptyPatch_patched (e : Event) (q : Bytes) (hv : e.Verb = "patch")
    (hl : e.Level ≠ Level.None) (hro : e.RequestObject = some (Unknown.mk q))
    (hq : emptyBody q = false) : IsEmptyPatch e = false := by
  rcases e with ⟨lvl, verb, user, oref, uri, rs, req, resp, ann⟩
  simp only at hv hl hro
  subst hv hro
  cases q with
  | none => simp [emptyBody] at hq
  | some raw =>
    cases lvl <;> simp_all [IsEmptyPatch, emptyBody, Level.GreaterOrEqual, ordLevel]

theorem filterTail_hit (lib : Lib) (m : Int) (cache : Option LRU) (e : Event) (ro : Unknown)
    (m0 : List (String × String)) (prev q : Bytes)
    (hst : responseStatusDrop e = .ok false) (hl : e.Level ≠ Level.None)
    (hv : e.Verb = "update") (hro : e.RequestObject = some ro) (han : e.Annotations = some m0)
    (hget : ((cacheOrNew cache).Get (beforeQuery e.RequestURI)).1 = some prev)
    (hp : lib.CreateThreeWayJSONMergePatch prev (canonicalBody lib e) prev = some q)
    (hq : emptyBody q = false) :
    ∃ e1, filterTail lib m cache e = .ok (false, e1, some (cacheAfter lib cache e)) ∧
      e1.Verb = "patch" ∧ mapGet e1.Annotations "converted-to-patch" = some "true" := by
  unfold filterTail
  rw [hst]
  simp only
  rw [updateToPatch_hit lib cache e ro m0 prev q hv hro han hget hp]
  simp only
  have hemp : IsEmptyPatch
      { e with Verb := "patch", RequestObject := some (Unknown.mk q),
               Annotations := some (mapSet m0 "converted-to-patch" "true") } = false :=
    IsEmptyPatch_patched _ q rfl hl rfl hq
  rw [hemp]
  simp only [Bool.false_eq_true, if_false, Keep]
  refine ⟨_, rfl, ?_, ?_⟩
  · exact finish_verb lib m _
  · have := finish_annotations lib m
      { e with Verb := "patch", RequestObject := some (Unknown.mk q),
               Annotations := some (mapSet m0 "converted-to-patch" "true") }
    unfold finish at this
    rw [this]
    exact mapGet_mapSet m0 _ _

theorem filterTail_total (lib : Lib) (m : Int) (cache : Option LRU) (e : Event) (ro : Unknown)
    (m0 : List (String × String))
    (hst : responseStatusDrop e = .ok false)
    (hv : e.Verb = "update") (hro : e.RequestObject = some ro) (han : e.Annotations = some m0) :
    ∃ v e1, filterTail lib m cache e = .ok (v, e1, some (cacheAfter lib cache e)) := by
  obtain ⟨e1, h1⟩ := updateToPatch_total lib cache e ro m0 hv hro han
  unfold filterTail
  rw [hst]
  simp only
  rw [h1]
  simp only
  split
  · exact ⟨_, _, rfl⟩
  · exact ⟨_, _, rfl⟩

/-! ## Sequences of updates of one object -/

theorem rulesStage_frame {lib : Lib} {p : Policy} {e e0 : Event} {v : Option Bool}
    (h : rulesStage lib p e = .ok (v, e0)) :
    e0.Verb = e.Verb ∧ e0.RequestURI = e.RequestURI ∧
      (e0.RequestObject ≠ none → e0.RequestObject = e.RequestObject) := by
  rw [rulesStage_eq] at h
  by_cases ha : Attributes lib e = none
  · simp [ha] at h
  rw [if_neg ha] at h
  cases hf : firstMatch lib p e with
  | some r =>
    rw [hf] at h
    have he : e0 = withRuleLevel e r.Level := by
      simp only at h
      by_cases hl : r.Level = Level.None
      · rw [if_pos hl] at h
        simp only [Except.ok.injEq, Prod.mk.injEq] at h
        exact h.2.symm
      · rw [if_neg hl] at h
        simp only [Except.ok.injEq, Prod.mk.injEq] at h
        exact h.2.symm
    subst he
    refine ⟨rfl, rfl, ?_⟩
    unfold withRuleLevel
    simp only
    split
    · intro hne
      exact absurd rfl hne
    · intro _
      rfl
  | none =>
    rw [hf] at h
    cases hh : heuristicRules lib e with
    | error x => simp [hh] at h
    | ok w =>
      simp [hh] at h
      rw [← h.2]
      exact ⟨rfl, rfl, fun _ => rfl⟩

theorem cacheAfter_congr (lib : Lib) (c : Option LRU) (e e0 : Event)
    (hu : e0.RequestURI = e.RequestURI) (hq : e0.RequestObject = e.RequestObject) :
    cacheAfter lib c e0 = cacheAfter lib c e := by
  unfold cacheAfter canonicalBody
  rw [hu, hq]

theorem cacheAfter_size (lib : Lib) (c : Option LRU) (e : Event) :
    (cacheAfter lib c e).size = (cacheOrNew c).size := by
  unfold cacheAfter
  rw [LRU_Add_size, LRU_Get_size]

theorem cacheAfter_Get (lib : Lib) (c : Option LRU) (e : Event)
    (h : 0 < (cacheOrNew c).size) :
    ((cacheAfter lib c e).Get (beforeQuery e.RequestURI)).1 = some (canonicalBody lib e) := by
  unfold cacheAfter
  apply LRU_Get_Add
  rw [LRU_Get_size]
  exact h

theorem FilterEvent_update_total (lib : Lib) (p : Policy) (m : Int) (c : Option LRU)
    (e : Event) (hv : e.Verb = "update") (hr : reachesReduction lib p e) :
    ∃ v e1, FilterEvent lib p m c e = .ok (v, e1, some (cacheAfter lib c e)) := by
  obtain ⟨e0, hrs, hst, _, hro, han⟩ := hr
  obtain ⟨fv, fu, fq⟩ := rulesStage_frame hrs
  obtain ⟨ro, hro1⟩ := Option.ne_none_iff_exists'.mp hro
  obtain ⟨m0, han1⟩ := Option.ne_none_iff_exists'.mp han
  unfold FilterEvent
  rw [hrs]
  simp only
  rw [← cacheAfter_congr lib c e e0 fu (fq hro)]
  exact filterTail_total lib m c e0 ro m0 hst (fv.trans hv) hro1 han1

theorem FilterEvent_update_hit (lib : Lib) (p : Policy) (m : Int) (c : Option LRU)
    (e : Event) (prev : Bytes) (hv : e.Verb = "update") (hr : reachesReduction lib p e)
    (hget : ((cacheOrNew c).Get (beforeQuery e.RequestURI)).1 = some prev)
    (hp : ∃ q, lib.CreateThreeWayJSONMergePatch prev (canonicalBody lib e) prev = some q ∧
      emptyBody q = false) :
    ∃ e1, FilterEvent lib p m c e = .ok (false, e1, some (cacheAfter lib c e)) ∧
      emittedAsPatch (false, e1) = true := by
  obtain ⟨e0, hrs, hst, hl, hro, han⟩ := hr
  obtain ⟨fv, fu, fq⟩ := rulesStage_frame hrs
  obtain ⟨ro, hro1⟩ := Option.ne_none_iff_exists'.mp hro
  obtain ⟨m0, han1⟩ := Option.ne_none_iff_exists'.mp han
  obtain ⟨q, hq1, hq2⟩ := hp
  have hcb : canonicalBody lib e0 = canonicalBody lib e := by
    unfold canonicalBody
    rw [fq hro]
  unfold FilterEvent
  rw [hrs]
  simp only
  rw [← cacheAfter_congr lib c e e0 fu (fq hro)]
  obtain ⟨e1, h1, h2, h3⟩ := filterTail_hit lib m c e0 ro m0 prev q hst hl (fv.trans hv) hro1 han1
    (by rw [fu]; exact hget) (by rw [hcb]; exact hq1) hq2
  refine ⟨e1, h1, ?_⟩
  simp [emittedAsPatch, h2, h3]

theorem FilterEvents_all_patched (lib : Lib) (p : Policy) (m : Int) (uri : String) :
    ∀ (rest : List Event) (a : Event) (c : Option LRU), 0 < (cacheOrNew c).size →
      ((cacheOrNew c).Get (beforeQuery uri)).1 = some (canonicalBody lib a) →
      List.Chain (patchable lib) a rest →
      (∀ e, e ∈ rest → e.Verb = "update" ∧ e.RequestURI = uri ∧ reachesReduction lib p e) →
      ∃ rs c', FilterEvents lib p m c rest = .ok (rs, c') ∧ rs.length = rest.length ∧
        ∀ r, r ∈ rs → emittedAsPatch r = true := by
  intro rest
  induction rest with
  | nil =>
    intro a c _ _ _ _
    exact ⟨[], c, rfl, rfl, by simp⟩
  | cons b rest ih =>
    intro a c hsize hget hchain hall
    obtain ⟨hv, hu, hr⟩ := hall b (List.mem_cons_self b rest)
    rw [List.chain_cons] at hchain
    obtain ⟨hab, hchain⟩ := hchain
    obtain ⟨e1, h1, h2⟩ := FilterEvent_update_hit lib p m c b (canonicalBody lib a) hv hr
      (by rw [hu]; exact hget) hab
    have hsize1 : 0 < (cacheOrNew (some (cacheAfter lib c b))).size := by
      show 0 < (cacheAfter lib c b).size
      rw [cacheAfter_size]
      exact hsize
    have hget1 : ((cacheOrNew (some (cacheAfter lib c b))).Get (beforeQuery uri)).1 =
        some (canonicalBody lib b) := by
      show ((cacheAfter lib c b).Get (beforeQuery uri)).1 = _
      rw [← hu]
      exact cacheAfter_Get lib c b hsize
    obtain ⟨rs, c', h3, h4, h5⟩ := ih b (some (cacheAfter lib c b)) hsize1 hget1 hchain
      (fun e he => hall e (List.mem_cons_of_mem b he))
    refine ⟨(false, e1) :: rs, c', ?_, by simp [h4], ?_⟩
    · simp only [FilterEvents, h1, h3]
    · intro r hr
      rcases List.mem_cons.mp hr with h | h
      · rw [h]
        exact h2
      · exact h5 r h

/-- C6 (as stated, refuted): two updates of one object by a human user, which
no rule matches, are both kept by the keep-all-user-events rule as they are,
as updates; none of them is emitted as a patch. -/
theorem C6_counterexample :
    FilterEvents specLib emptyPolicy 1000000 none [aliceUpdate bodyV1, aliceUpdate bodyV2] =
        .ok ([(false, aliceUpdate bodyV1), (false, aliceUpdate bodyV2)], none) ∧
      (aliceUpdate bodyV1).RequestURI = (aliceUpdate bodyV2).RequestURI ∧
      List.countP emittedAsPatch [(false, aliceUpdate bodyV1), (false, aliceUpdate bodyV2)] = 0 :=
  ⟨rfl, rfl, by decide⟩

/-- C6 (amended): for N >= 2 update events with the same request URI,
processed in order with one shared cache, if every event reaches the
update-to-patch step with a request object, a non-nil annotation map and a
level other than None, and the merge patch between the canonical bodies of
each two consecutive events is computed without error and is not an empty
body, then the run returns a result for every event, every event after the
first is kept with verb patch and annotation converted-to-patch = true, and so
at least N-1 events are emitted as patch. -/
theorem C6_updates_become_patches (lib : Lib) (p : Policy) (m : Int) (c : Option LRU)
    (es : List Event) (uri : String) (_hN : 2 ≤ es.length)
    (hsize : 0 < (cacheOrNew c).size)
    (hall : ∀ e, e ∈ es → e.Verb = "update" ∧ e.RequestURI = uri ∧ reachesReduction lib p e)
    (hchain : List.Chain' (patchable lib) es) :
    ∃ rs c', FilterEvents lib p m c es = .ok (rs, c') ∧ rs.length = es.length ∧
      (∀ r, r ∈ rs.tail → emittedAsPatch r = true) ∧
      es.length - 1 ≤ rs.countP emittedAsPatch := by
  cases es with
  | nil => simp at _hN
  | cons a rest =>
    obtain ⟨hv, hu, hr⟩ := hall a (List.mem_cons_self a rest)
    obtain ⟨v, e1, h1⟩ := FilterEvent_update_total lib p m c a hv hr
    have hsize1 : 0 < (cacheOrNew (some (cacheAfter lib c a))).size := by
      show 0 < (cacheAfter lib c a).size
      rw [cacheAfter_size]
      exact hsize
    have hget1 : ((cacheOrNew (some (cacheAfter lib c a))).Get (beforeQuery uri)).1 =
        some (canonicalBody lib a) := by
      show ((cacheAfter lib c a).Get (beforeQuery uri)).1 = _
      rw [← hu]
      exact cacheAfter_Get lib c a hsize
    obtain ⟨rs, c', h3, h4, h5⟩ := FilterEvents_all_patched lib p m uri rest a
      (some (cacheAfter lib c a)) hsize1 hget1 hchain
      (fun e he => hall e (List.mem_cons_of_mem a he))
    refine ⟨(v, e1) :: rs, c', ?_, by simp [h4], ?_, ?_⟩
    · simp only [FilterEvents, h1, h3]
    · simpa using h5
    · have hcount : rs.countP emittedAsPatch = rs.length :=
        List.countP_eq_length.mpr (fun r hr => h5 r hr)
      have hle : rs.countP emittedAsPatch ≤ ((v, e1) :: rs).countP emittedAsPatch := by
        rw [List.countP_cons]
        exact Nat.le_add_right _ _
      simp only [List.length_cons, Nat.add_sub_cancel]
      omega

/-- Witness for C6 (amended): the update scenario of the specification, issued
by a controller under the Request policy: the first update is emitted as an
update, the second as a patch. -/
theorem C6_updates_become_patches_witness :
    FilterEvents scenarioLib requestOnly 1000000 none
        [controllerUpdateOf bodyV1, controllerUpdateOf bodyV2] =
        .ok ([(false, controllerUpdateOf bodyV1), (false, controllerUpdateAsPatch)],
          some (cacheAfter scenarioLib (some (cacheAfter scenarioLib none
            (controllerUpdateOf bodyV1))) (controllerUpdateOf bodyV2))) ∧
      ∃ rs c', FilterEvents scenarioLib requestOnly 1000000 none
          [controllerUpdateOf bodyV1, controllerUpdateOf bodyV2] = .ok (rs, c') ∧
        rs.length = [controllerUpdateOf bodyV1, controllerUpdateOf bodyV2].length ∧
        (∀ r, r ∈ rs.tail → emittedAsPatch r = true) ∧
        [controllerUpdateOf bodyV1, controllerUpdateOf bodyV2].length - 1 ≤
          rs.countP emittedAsPatch :=
  ⟨rfl,
    C6_updates_become_patches scenarioLib requestOnly 1000000 none
      [controllerUpdateOf bodyV1, controllerUpdateOf bodyV2]
      "/api/v1/namespaces/x/configmaps/c" (by decide) (by decide)
      (by
        intro e he
        simp only [List.mem_cons, List.mem_singleton, List.not_mem_nil, or_false] at he
        rcases he with rfl | rfl
        · exact ⟨rfl, rfl, _, rfl, rfl, by decide, by decide, by decide⟩
        · exact ⟨rfl, rfl, _, rfl, rfl, by decide, by decide, by decide⟩)
      (by
        simp only [List.chain'_cons, List.chain'_singleton, and_true]
        exact ⟨_, rfl, by decide⟩)⟩

/-! ## The rules for uncovered events as a cascade -/

/-- The rules for uncovered events compute the cascade of the specification
on every event that has an attribute accessor and has an object reference or a
verb that is neither update nor create; the remaining events with accessor (no
object reference, verb update or create) are the ones on which the configmap
rule can dereference nil. -/
theorem heuristicRules_cascade (lib : Lib) (e : Event) (a : AuthzAttributes)
    (ha : Attributes lib e = some a)
    (h : e.ObjectRef ≠ none ∨ ¬ (e.Verb = "update" ∨ e.Verb = "create")) :
    heuristicRules lib e = .ok (heuristicCascade lib a e) := by
  unfold heuristicRules attributesIsReadOnly heuristicCascade
  rw [ha]
  rcases e with ⟨lvl, verb, user, oref, uri, rs, req, resp, ann⟩
  simp only at h
  simp only [Drop, Keep, Level.Less]
  cases oref with
  | none =>
    simp only [ne_eq, not_true_eq_false, false_or] at h
    cases hro : lib.IsReadOnly a <;> simp [h, hro]
    repeat' split
    all_goals simp_all
  | some o =>
    cases hro : lib.IsReadOnly a <;> cases req <;> simp [hro]
    all_goals repeat' split
    all_goals simp_all

/-! ## The filter worker with no-filter on events the filter leaves alone -/

theorem downgradeLevel_other_verb (e : Event) (hu : e.Verb ≠ "update") (hp : e.Verb ≠ "patch") :
    downgradeLevel e = e := by
  unfold downgradeLevel
  rw [if_neg]
  intro h
  rcases h.1 with h1 | h1
  · exact hu h1
  · exact hp h1

/-- With no-filter the forwarded event is equal to the decoded event whenever
FilterEvent returns on an event that no rule matches, whose verb is neither
update nor patch and whose estimated size is within max-line-length; the
cache is untouched as well. -/
theorem filterStep_nofilter_unchanged (lib : Lib) (p : Policy) (m : Int) (c c' : Option LRU)
    (e e' : Event) (v : Bool) (hf : firstMatch lib p e = none) (hu : e.Verb ≠ "update")
    (hp : e.Verb ≠ "patch") (hs : EstimateOutputSize e ≤ m)
    (h : FilterEvent lib p m c e = .ok (v, e', c')) :
    filterStep lib p m true c e = .ok (some e, c) := by
  have hec : e' = e ∧ c' = c := by
    have h0 := h
    unfold FilterEvent at h
    rw [rulesStage_eq] at h
    by_cases ha : Attributes lib e = none
    · simp [ha] at h
    rw [if_neg ha, hf] at h
    cases hh : heuristicRules lib e with
    | error x => simp [hh] at h
    | ok w =>
      rw [hh] at h
      cases w with
      | some b =>
        simp only [Except.ok.injEq, Prod.mk.injEq] at h
        exact ⟨h.2.1.symm, h.2.2.symm⟩
      | none =>
        simp only at h
        rw [filterTail_small lib m c _ hu hs, downgradeLevel_other_verb e hu hp] at h
        cases hst : responseStatusDrop e with
        | error x => simp [hst] at h
        | ok b =>
          rw [hst] at h
          cases b with
          | true =>
            simp only [Except.ok.injEq, Prod.mk.injEq] at h
            exact ⟨h.2.1.symm, h.2.2.symm⟩
          | false =>
            cases hemp : IsEmptyPatch e with
            | true =>
              simp only [hemp, if_true, Except.ok.injEq, Prod.mk.injEq] at h
              exact ⟨h.2.1.symm, h.2.2.symm⟩
            | false =>
              simp only [hemp, Bool.false_eq_true, if_false, Except.ok.injEq,
                Prod.mk.injEq] at h
              exact ⟨h.2.1.symm, h.2.2.symm⟩
  rw [hec.1, hec.2] at h
  exact filterStep_nofilter lib p m c c e e v h

end Exporter
